import Mathlib

/-!
Verification development for the GistFlow publishing pipeline.

Text is modelled as List Char (one element per Unicode code point, matching
Python str indexing).  The definitions below are shallow embeddings of
src/gistflow/core/publisher.py (markdown transformer, chunked append,
retry policy), src/gistflow/models/schemas.py (Gist) and src/main.py
(run orchestrator).  Network and LLM effects are modelled by explicit
oracles; ledger writes are modelled as an effect trace.
-/

set_option maxHeartbeats 2000000

/-- Python regex class [\s] restricted to the ASCII whitespace characters,
which are the only whitespace characters these inputs can contain. -/
def pyIsSpace (c : Char) : Bool :=
  c = ' ' || c = '\t' || c = '\n' || c = '\r' || c = '\x0b' || c = '\x0c'

/-- Character class of the table-separator regexes: [\s|:\-]. -/
def sepClassB (c : Char) : Bool :=
  pyIsSpace c || c = '|' || c = ':' || c = '-'

/-- Inner class [\s\-:] of the pattern \|[\s\-:]{3,}\| . -/
def innerSepB (c : Char) : Bool :=
  pyIsSpace c || c = '-' || c = ':'

/-- Python str.split(sep) for a single-character separator. -/
def splitChar (sep : Char) : List Char → List (List Char)
  | [] => [[]]
  | c :: rest =>
    if c = sep then [] :: splitChar sep rest
    else
      match splitChar sep rest with
      | h :: t => (c :: h) :: t
      | [] => [[c]]

/-- Python str.split on the two-character separator "\n\n"
(leftmost, non-overlapping). -/
def splitNN : List Char → List (List Char)
  | [] => [[]]
  | [c] => [[c]]
  | c :: c2 :: rest =>
    if c = '\n' ∧ c2 = '\n' then [] :: splitNN rest
    else
      match splitNN (c2 :: rest) with
      | h :: t => (c :: h) :: t
      | [] => [[c]]

/-- Python str.lstrip(). -/
def lstripWs (l : List Char) : List Char := l.dropWhile pyIsSpace

/-- Python str.rstrip(). -/
def rstripWs (l : List Char) : List Char := (l.reverse.dropWhile pyIsSpace).reverse

/-- Python str.strip(). -/
def stripWs (l : List Char) : List Char := rstripWs (lstripWs l)

/-- Python str.startswith for list-of-char text. -/
def isPrefixList : List Char → List Char → Bool
  | [], _ => true
  | _ :: _, [] => false
  | p :: ps, c :: cs => p = c && isPrefixList ps cs

/-- NOTION_RICH_TEXT_MAX (publisher.py line 18). -/
def NOTION_RICH_TEXT_MAX : Nat := 2000

/-- publisher.py lines 21-25: _truncate_for_notion, text[:2000]. -/
def truncate_for_notion (text : List Char) : List Char :=
  text.take NOTION_RICH_TEXT_MAX

/-- One Notion rich_text item: text.content, annotations (bold/italic/color)
and text.link. -/
structure RichItem where
  content : List Char
  bold : Bool := false
  italic : Bool := false
  color : Option String := none
  link : Option (List Char) := none
deriving DecidableEq, Repr

def plainItem (t : List Char) : RichItem := { content := t }

/-- The rich_text item built for a bold or italic match in _parse_bold_italic. -/
def fmtItem (isBold : Bool) (t : List Char) : RichItem :=
  if isBold then { content := t, bold := true } else { content := t, italic := true }

/-- Notion block objects produced by the publisher, as a tagged variant.
The heading level stores the N of heading_N. -/
inductive NBlock where
  | heading (level : Nat) (rich : List RichItem)
  | paragraph (rich : List RichItem)
  | bulletItem (rich : List RichItem)
  | numberedItem (rich : List RichItem)
  | code (text : List Char)
  | divider
  | toggle (rich : List RichItem) (children : List NBlock)

/-- Regex \*\*([^*]+)\*\* matched at the start of l: two stars, a maximal
nonempty star-free run, two stars.  Returns (match length, group 1). -/
def matchBoldAt (l : List Char) : Option (Nat × List Char) :=
  match l with
  | c1 :: c2 :: rest =>
    if c1 = '*' ∧ c2 = '*' then
      let content := rest.takeWhile (fun c => c ≠ '*')
      if content.isEmpty then none
      else
        match rest.drop content.length with
        | d1 :: d2 :: _ =>
          if d1 = '*' ∧ d2 = '*' then some (content.length + 4, content) else none
        | _ => none
    else none
  | _ => none

/-- Regex (?<!\*)\*([^*]+)\*(?!\*) matched at the start of l; prev is the
character just before the match position inside the searched slice
(none at slice start), used by the lookbehind. -/
def matchItalAt (prev : Option Char) (l : List Char) : Option (Nat × List Char) :=
  match l with
  | c1 :: rest =>
    if c1 = '*' then
      if prev = some '*' then none
      else
        let content := rest.takeWhile (fun c => c ≠ '*')
        if content.isEmpty then none
        else
          match rest.drop content.length with
          | d1 :: t =>
            if d1 = '*' then
              if t.head? = some '*' then none else some (content.length + 2, content)
            else none
          | [] => none
    else none
  | [] => none

/-- Leftmost match of either emphasis regex, scanning positions left to
right exactly as the pair of re.search calls in _parse_bold_italic does;
returns (start, end, isBold, group 1).  Bold and italic can never match at
the same position, so first-position-that-matches equals the earlier of the
two leftmost matches. -/
def findEmphGo (prev : Option Char) (p : Nat) : List Char → Option (Nat × Nat × Bool × List Char)
  | [] => none
  | c :: rest =>
    match matchBoldAt (c :: rest) with
    | some (len, content) => some (p, p + len, true, content)
    | none =>
      match matchItalAt prev (c :: rest) with
      | some (len, content) => some (p, p + len, false, content)
      | none => findEmphGo (some c) (p + 1) rest

def findEmph (l : List Char) : Option (Nat × Nat × Bool × List Char) :=
  findEmphGo none 0 l

/-- publisher.py lines 788-848, loop body of _parse_bold_italic.  The fuel
argument only bounds the recursion; it is called with fuel = length of the
text, and every match consumes at least one character, so the fuel never
runs out before the text does. -/
def parseBoldItalicGo : Nat → List Char → List RichItem
  | 0, s => if s.isEmpty then [] else [plainItem (truncate_for_notion s)]
  | fuel + 1, s =>
    if s.isEmpty then []
    else
      match findEmph s with
      | none => [plainItem (truncate_for_notion s)]
      | some (start, stop, isBold, content) =>
        (if (s.take start).isEmpty then [] else [plainItem (truncate_for_notion (s.take start))])
        ++ [fmtItem isBold (truncate_for_notion content)]
        ++ parseBoldItalicGo fuel (s.drop stop)

/-- publisher.py lines 788-848: _parse_bold_italic. -/
def parse_bold_italic (text : List Char) : List RichItem :=
  if text.isEmpty then []
  else
    let items := parseBoldItalicGo text.length text
    if items.isEmpty then [plainItem (truncate_for_notion text)] else items

/-- Regex \[([^\]]+)\]\(([^)]+)\) matched at the start of l.
Returns (match length, group 1, group 2). -/
def matchLinkAt (l : List Char) : Option (Nat × List Char × List Char) :=
  match l with
  | c1 :: rest =>
    if c1 = '[' then
      let g1 := rest.takeWhile (fun c => c ≠ ']')
      if g1.isEmpty then none
      else
        match rest.drop g1.length with
        | d1 :: d2 :: rest2 =>
          if d1 = ']' ∧ d2 = '(' then
            let g2 := rest2.takeWhile (fun c => c ≠ ')')
            if g2.isEmpty then none
            else
              match rest2.drop g2.length with
              | e1 :: _ => if e1 = ')' then some (g1.length + g2.length + 4, g1, g2) else none
              | [] => none
          else none
        | _ => none
    else none
  | [] => none

/-- Leftmost match of the link regex (re.search). Returns
(start, match length, group 1, group 2). -/
def findLinkGo (p : Nat) : List Char → Option (Nat × Nat × List Char × List Char)
  | [] => none
  | c :: rest =>
    match matchLinkAt (c :: rest) with
    | some (len, g1, g2) => some (p, len, g1, g2)
    | none => findLinkGo (p + 1) rest

def findLink (l : List Char) : Option (Nat × Nat × List Char × List Char) :=
  findLinkGo 0 l

def startsWithHttp (url : List Char) : Bool := isPrefixList ("http".toList) url

/-- publisher.py lines 769-775: a rich_text item inside link text gets the
link url (truncated to 2000, only for http urls) and color blue. -/
def linkify (url : List Char) (it : RichItem) : RichItem :=
  { it with
    link := if startsWithHttp url then some (url.take 2000) else none
  , color := some ("blue") }

/-- publisher.py lines 753-784, loop body of _parse_markdown_inline.
Fuel bounds the recursion as in parseBoldItalicGo. -/
def parseInlineGo : Nat → List Char → List RichItem
  | 0, s => if s.isEmpty then [] else parse_bold_italic s
  | fuel + 1, s =>
    if s.isEmpty then []
    else
      match findLink s with
      | none => parse_bold_italic s
      | some (start, len, g1, g2) =>
        (if (s.take start).isEmpty then [] else parse_bold_italic (s.take start))
        ++ ((parse_bold_italic g1).filter (fun it => !it.content.isEmpty)).map (linkify g2)
        ++ parseInlineGo fuel (s.drop (start + len))

/-- publisher.py lines 736-786: _parse_markdown_inline. -/
def parse_markdown_inline (text : List Char) : List RichItem :=
  if text.isEmpty then []
  else
    let items := parseInlineGo text.length text
    if items.isEmpty then [plainItem (truncate_for_notion text)] else items

/-- publisher.py line 604: re.match(r'^[\s|:\-]+$', stripped) together with
len(stripped) > 3. -/
def isTableSepLine (s : List Char) : Bool :=
  !s.isEmpty && s.all sepClassB && decide (3 < s.length)

/-- re.sub(r'\|{5,}', ' ', content) (publisher.py line 613): each maximal
run of at least five pipes is replaced by one space; k counts the pipes of
the run currently being scanned. -/
def subPipes5Go : Nat → List Char → List Char
  | k, [] => if 5 ≤ k then [' '] else List.replicate k '|'
  | k, c :: rest =>
    if c = '|' then subPipes5Go (k + 1) rest
    else (if 5 ≤ k then [' '] else List.replicate k '|') ++ c :: subPipes5Go 0 rest

def subPipes5 (l : List Char) : List Char := subPipes5Go 0 l

/-- re.sub(r'\|[\s\-:]{3,}\|', ' ', content) (publisher.py line 615):
a pipe, a maximal run of at least three [\s\-:] characters, a pipe; the
scan resumes after the consumed closing pipe.  Fuel = list length. -/
def subTSGo : Nat → List Char → List Char
  | 0, l => l
  | fuel + 1, l =>
    match l with
    | [] => []
    | c :: rest =>
      if c = '|' then
        let run := rest.takeWhile innerSepB
        if 3 ≤ run.length then
          match rest.drop run.length with
          | d :: rest2 => if d = '|' then ' ' :: subTSGo fuel rest2 else '|' :: subTSGo fuel rest
          | [] => '|' :: subTSGo fuel rest
        else '|' :: subTSGo fuel rest
      else c :: subTSGo fuel rest

def subTableSep (l : List Char) : List Char := subTSGo l.length l

/-- Slices item_text[i:i+2000] for i in range(0, len, 2000)
(publisher.py line 712).  Fuel = list length. -/
def chunksByGo (k : Nat) : Nat → List Char → List (List Char)
  | 0, l => if l.isEmpty then [] else [l.take k]
  | fuel + 1, l => if l.isEmpty then [] else l.take k :: chunksByGo k fuel (l.drop k)

def chunksBy2000 (l : List Char) : List (List Char) := chunksByGo 2000 l.length l

/-- publisher.py lines 691-725: one step of the paragraph length-limit loop.
State is (flushed blocks, current_chunk, current_length).  In the
over-long-item branch the new per-slice item keeps only content and
annotations; the link is not copied (line 714-718). -/
def chunkStep (st : List NBlock × List RichItem × Nat) (item : RichItem) :
    List NBlock × List RichItem × Nat :=
  match st with
  | (blocks, cur, len) =>
    let l := item.content.length
    if len + l ≤ NOTION_RICH_TEXT_MAX then (blocks, cur ++ [item], len + l)
    else
      let blocks1 := if cur.isEmpty then blocks else blocks ++ [NBlock.paragraph cur]
      if l ≤ NOTION_RICH_TEXT_MAX then (blocks1, [item], l)
      else
        (blocks1 ++ (chunksBy2000 item.content).map
            (fun t => NBlock.paragraph [{ content := t, bold := item.bold
                                        , italic := item.italic, color := item.color }])
        , [], 0)

/-- publisher.py lines 685-732: the regular-paragraph branch, splitting a
rich_text list into paragraph blocks of total length at most 2000. -/
def chunkRich (rich : List RichItem) : List NBlock :=
  if rich.isEmpty then []
  else
    match rich.foldl chunkStep ([], [], 0) with
    | (blocks, cur, _) => blocks ++ (if cur.isEmpty then [] else [NBlock.paragraph cur])

/-- Python str.isdigit on one char, for regex \d (ASCII digits). -/
def pyIsDigit (c : Char) : Bool := '0' ≤ c && c ≤ '9'

/-- re.match(r'^\d+\.\s', l): one or more digits, a dot, one whitespace. -/
def matchesNumDot (l : List Char) : Bool :=
  let ds := l.takeWhile pyIsDigit
  !ds.isEmpty &&
    (match l.drop ds.length with
     | d :: c :: _ => d = '.' && pyIsSpace c
     | _ => false)

/-- re.sub(r'^\d+\.\s+', '', l): drop the leading digits, dot and the
maximal following whitespace run, when that pattern matches at the start. -/
def subNumDot (l : List Char) : List Char :=
  let ds := l.takeWhile pyIsDigit
  if ds.isEmpty then l
  else
    match l.drop ds.length with
    | d :: rest =>
      if d = '.' then
        if (rest.takeWhile pyIsSpace).isEmpty then l else rest.dropWhile pyIsSpace
      else l
    | [] => l

/-- Characters stripped by lstrip('-* ') in the bullet branch. -/
def bulletStripB (c : Char) : Bool := c = '-' || c = '*' || c = ' '

/-- publisher.py lines 620-732: classification and conversion of one
blank-line-separated, stripped paragraph unit. -/
def processPara (para : List Char) : List NBlock :=
  if para.isEmpty then []
  else if para.head? = some '#' then
    let level := (para.takeWhile (fun c => c = '#')).length
    let text := stripWs (para.dropWhile (fun c => c = '#'))
    if text.isEmpty then []
    else [NBlock.heading (min level 3) (parse_markdown_inline text)]
  else if isPrefixList ("```".toList) para then
    let ls := splitChar '\n' para
    if ls.length ≤ 1 then []
    else
      let body := ls.drop 1
      let codeContent :=
        if stripWs (ls.getLastD []) = ("```".toList) then List.intercalate ['\n'] body.dropLast
        else List.intercalate ['\n'] body
      [NBlock.code (truncate_for_notion codeContent)]
  else if isPrefixList ("- ".toList) para || isPrefixList ("* ".toList) para then
    let items := ((splitChar '\n' para).map stripWs).filter
      (fun l => isPrefixList ("- ".toList) l || isPrefixList ("* ".toList) l)
    (items.map (fun it =>
      let t := stripWs (it.dropWhile bulletStripB)
      if t.isEmpty then [] else [NBlock.bulletItem (parse_markdown_inline t)])).flatten
  else if matchesNumDot para then
    let items := ((splitChar '\n' para).map stripWs).filter matchesNumDot
    (items.map (fun it =>
      let t := subNumDot it
      if t.isEmpty then [] else [NBlock.numberedItem (parse_markdown_inline t)])).flatten
  else
    chunkRich (parse_markdown_inline para)

/-- publisher.py lines 580-734: _parse_markdown_to_blocks. -/
def parse_markdown_to_blocks (content : List Char) : List NBlock :=
  if content.isEmpty then []
  else
    let lines := splitChar '\n' content
    let cleaned := lines.filter (fun line => !isTableSepLine (stripWs line))
    let content1 := List.intercalate ['\n'] cleaned
    let content2 := subPipes5 content1
    let content3 := subTableSep content2
    let paras := splitNN content3
    ((paras.map (fun p => processPara (stripWs p))).flatten)

/-- The rich_text runs of one block (the code block serializes as a single
rich_text item holding its text). -/
def blockRuns : NBlock → List RichItem
  | NBlock.heading _ rich => rich
  | NBlock.paragraph rich => rich
  | NBlock.bulletItem rich => rich
  | NBlock.numberedItem rich => rich
  | NBlock.code t => [plainItem t]
  | NBlock.divider => []
  | NBlock.toggle rich _ => rich

def sumRunLens (rich : List RichItem) : Nat :=
  (rich.map (fun r => r.content.length)).sum

/-- Concatenation, in document order, of the text contents of all rich_text
runs of all blocks. -/
def concatRunTexts (blocks : List NBlock) : List Char :=
  ((blocks.map blockRuns).flatten.map (fun r => r.content)).flatten

/-- The two bounds the length invariant can claim of one block: every
rich_text run holds at most 2000 characters, and a paragraph block's runs
sum to at most 2000 characters. -/
def GoodBlock (b : NBlock) : Prop :=
  (∀ r ∈ blockRuns b, r.content.length ≤ 2000)
  ∧ ∀ rich, b = NBlock.paragraph rich → sumRunLens rich ≤ 2000

/-- schemas.py lines 12-39: the Gist model.  Only the fields the publisher
and orchestrator read are kept; received_at holds the already-formatted
date string (the publisher only renders it). -/
structure Gist where
  title : List Char
  summary : List Char
  score : Nat
  tags : List (List Char) := []
  key_insights : List (List Char) := []
  mentioned_links : List (List Char) := []
  is_spam_or_irrelevant : Bool := false
  original_id : Option (List Char) := none
  sender : Option (List Char) := none
  received_at : Option (List Char) := none
  raw_markdown : Option (List Char) := none
  original_url : Option (List Char) := none
deriving DecidableEq, Repr

/-- schemas.py lines 41-43: def is_valuable(self), with no parameters
besides self: not is_spam_or_irrelevant and score >= 30. -/
def is_valuable (g : Gist) : Bool :=
  !g.is_spam_or_irrelevant && decide (30 ≤ g.score)

/-- Python call binding for gist.is_valuable(...): the method accepts no
keyword arguments, so any keyword call raises TypeError (modelled as the
error case); error value is the unexpected keyword name. -/
def callIsValuableKw (g : Gist) (kwargs : List String) : Except String Bool :=
  match kwargs with
  | [] => Except.ok (is_valuable g)
  | kw :: _ => Except.error kw

/-- Python truthiness of an Optional[str] field. -/
def optTruthy : Option (List Char) → Bool
  | none => false
  | some s => !s.isEmpty

/-- publisher.py lines 309-328: the summary section of _build_content_blocks. -/
def summarySegment (g : Gist) : List NBlock :=
  if !g.summary.isEmpty then
    [ NBlock.heading 2 [plainItem ("📋 摘要".toList)]
    , NBlock.paragraph [plainItem (truncate_for_notion g.summary)]
    , NBlock.divider ]
  else []

/-- publisher.py lines 331-354: the key-insights section. -/
def insightsSegment (g : Gist) : List NBlock :=
  if !g.key_insights.isEmpty then
    [NBlock.heading 2 [plainItem ("💡 核心要点".toList)]]
    ++ g.key_insights.map (fun ins => NBlock.bulletItem [plainItem (truncate_for_notion ins)])
    ++ [NBlock.divider]
  else []

/-- publisher.py lines 357-385: the mentioned-links section. -/
def linksSegment (g : Gist) : List NBlock :=
  if !g.mentioned_links.isEmpty then
    [NBlock.heading 2 [plainItem ("📎 相关链接".toList)]]
    ++ (g.mentioned_links.take 10).map (fun l =>
        NBlock.bulletItem
          [ { content := truncate_for_notion l
            , link := if startsWithHttp l then some (truncate_for_notion l) else none } ])
    ++ [NBlock.divider]
  else []

/-- publisher.py lines 396-457: the paragraphs shown above the email body
inside the toggle (sender, date, link, then a divider when any exist). -/
def toggleHeader (g : Gist) : List NBlock :=
  (if optTruthy g.sender then
    [ NBlock.paragraph
        [ { content := ("发件人: ".toList), bold := true, color := some ("gray") }
        , plainItem ((g.sender.getD []).take 100) ] ]
   else [])
  ++ (match g.received_at with
      | some d =>
        [ NBlock.paragraph
            [ { content := ("日期: ".toList), bold := true, color := some ("gray") }
            , plainItem d ] ]
      | none => [])
  ++ (if optTruthy g.original_url then
        [ NBlock.paragraph
            [ { content := ("链接: ".toList), bold := true, color := some ("gray") }
            , (let u := g.original_url.getD []
               let urlText := truncate_for_notion (u.take 100)
               if startsWithHttp u then
                 { content := urlText, link := some (u.take 2000), color := some ("blue") }
               else { content := urlText, color := some ("blue") }) ] ]
      else [])

/-- publisher.py lines 388-475: the raw-email section.  The email body is
wrapped in a single toggle block titled 邮件原文（点击展开）. -/
def rawSegment (g : Gist) : List NBlock :=
  match g.raw_markdown with
  | some raw =>
    if raw.isEmpty then []
    else
      let hdr := toggleHeader g
      let children := (if hdr.isEmpty then [] else hdr ++ [NBlock.divider])
        ++ parse_markdown_to_blocks raw
      [ NBlock.toggle
          [ { content := ("📧 邮件原文（点击展开）".toList), italic := true, color := some ("gray") } ]
          children ]
  | none => []

/-- publisher.py lines 484-497: the metadata footer paragraph. -/
def metaSegment (g : Gist) : List NBlock :=
  match g.original_id with
  | some oid =>
    if oid.isEmpty then []
    else
      [ NBlock.paragraph
          [ { content := truncate_for_notion (("📧 Message ID: ".toList) ++ oid.take 20)
            , italic := true, color := some ("gray") } ] ]
  | none => []

/-- publisher.py lines 296-499: _build_content_blocks. -/
def build_content_blocks (g : Gist) : List NBlock :=
  summarySegment g ++ insightsSegment g ++ linksSegment g ++ rawSegment g
  ++ [NBlock.divider] ++ metaSegment g

/-- publisher.py lines 161-166: a block counts as the email-content start
when it is a heading_2 whose first rich_text content is 邮件原文. -/
def isEmailContentHeading : NBlock → Bool
  | NBlock.heading lvl rich =>
    if lvl = 2 then
      match rich with
      | r :: _ => r.content = ("📧 邮件原文".toList)
      | [] => false
    else false
  | _ => false

def findEmailGo (i : Nat) : List NBlock → Option Nat
  | [] => none
  | b :: rest => if isEmailContentHeading b then some i else findEmailGo (i + 1) rest

/-- publisher.py lines 151-167: _find_email_content_start_index. -/
def find_email_content_start_index (blocks : List NBlock) : Option Nat :=
  findEmailGo 0 blocks

/-- publisher.py lines 195-220: the chunk loop of _append_blocks_in_chunks.
The network is modelled by the oracle fails : chunk number → whether the
append of that chunk still fails after its 5 retry attempts.  Returns the
failed_chunks list and, when the loop raised, the chunk number whose
terminal error propagated. -/
def appendChunksGo (fails : Nat → Bool) (emailChunk : Option Nat) :
    List Nat → List Nat → List Nat × Option Nat
  | [], failed => (failed, none)
  | n :: rest, failed =>
    if fails n then
      let failed1 := failed ++ [n]
      if n = 1 ∨ emailChunk = some n then (failed1, some n)
      else appendChunksGo fails emailChunk rest failed1
    else appendChunksGo fails emailChunk rest failed

/-- publisher.py lines 169-229: _append_blocks_in_chunks, abstracted over
the number of blocks; chunk numbers are 1-based as in the code.  The
all-chunks-failed re-raise (lines 223-225) reports the last failed chunk,
whose exception was kept in last_exception. -/
def append_blocks_in_chunks (numBlocks : Nat) (emailIdx : Option Nat) (fails : Nat → Bool) :
    List Nat × Option Nat :=
  if numBlocks = 0 then ([], none)
  else
    let total := (numBlocks + 100 - 1) / 100
    let emailChunk := emailIdx.map (fun i => i / 100 + 1)
    match appendChunksGo fails emailChunk (List.range' 1 total) [] with
    | (failed, some n) => (failed, some n)
    | (failed, none) =>
      if failed.length = total ∧ !failed.isEmpty then (failed, some (failed.getLastD 0))
      else (failed, none)

/-- Error kinds a Notion call can raise; the first three are instances of
the APIResponseError class (the Notion client raises it for every API error
response, validation and auth included). -/
inductive NotionErr where
  | apiValidation
  | apiAuth
  | apiRateLimit
  | httpErr
  | connErr
  | timeoutErr
  | valueErr
  | otherErr
deriving DecidableEq, Repr

/-- publisher.py lines 47-52 and 72-77: retry_if_exception_type((
HTTPResponseError, APIResponseError, ConnectionError, TimeoutError)) —
an isinstance test on the exception class. -/
def notionRetryable : NotionErr → Bool
  | NotionErr.apiValidation => true
  | NotionErr.apiAuth => true
  | NotionErr.apiRateLimit => true
  | NotionErr.httpErr => true
  | NotionErr.connErr => true
  | NotionErr.timeoutErr => true
  | NotionErr.valueErr => false
  | NotionErr.otherErr => false

/-- tenacity retry loop with stop_after_attempt and reraise=True.  The
attempt oracle gives the outcome of the k-th call (none = success); fuel is
the number of retries still allowed after the current attempt.  Returns the
final outcome and the number of attempts made. -/
def retryGo (retryable : NotionErr → Bool) (attempt : Nat → Option NotionErr) :
    Nat → Nat → Option NotionErr × Nat
  | 0, k => (attempt k, k)
  | fuel + 1, k =>
    match attempt k with
    | none => (none, k)
    | some e => if retryable e then retryGo retryable attempt fuel (k + 1) else (some e, k)

def with_retry (maxAttempts : Nat) (retryable : NotionErr → Bool)
    (attempt : Nat → Option NotionErr) : Option NotionErr × Nat :=
  retryGo retryable attempt (maxAttempts - 1) 1

/-- publisher.py lines 47-70: _create_page_with_retry under policy
stop_after_attempt(5). -/
def create_page_with_retry (attempt : Nat → Option NotionErr) : Option NotionErr × Nat :=
  with_retry 5 notionRetryable attempt

/-- publisher.py lines 72-96: _append_blocks_with_retry under policy
stop_after_attempt(5). -/
def append_blocks_with_retry (attempt : Nat → Option NotionErr) : Option NotionErr × Nat :=
  with_retry 5 notionRetryable attempt

/-- Remote side effects performed by push. -/
inductive RemoteOp where
  | createPage
  | appendBlocks
deriving DecidableEq, Repr

/-- Outcome of NotionPublisher.push as observed by the caller. -/
inductive PushResult where
  | returned (pageId : Option Nat)
  | raisedTypeError
deriving DecidableEq, Repr

/-- Network oracle for push: result of the (already retried) page creation,
the created page id, and the append-failure oracle per chunk. -/
structure RemoteOracle where
  createResult : Option NotionErr := none
  pageId : Nat := 0
  appendFails : Nat → Bool := fun _ => false

/-- publisher.py lines 98-149: push.  The spam check returns None before
any remote call.  The next statement calls
gist.is_valuable(min_score=self.settings.MIN_VALUE_SCORE); Gist.is_valuable
takes no min_score parameter, so the keyword call raises TypeError, and it
sits outside the try/except, so the exception propagates out of push. -/
def push (net : RemoteOracle) (g : Gist) : PushResult × List RemoteOp :=
  if g.is_spam_or_irrelevant then (PushResult.returned none, [])
  else
    match callIsValuableKw g [("min_score")] with
    | Except.error _ => (PushResult.raisedTypeError, [])
    | Except.ok v =>
      if v = false then (PushResult.returned none, [])
      else
        match net.createResult with
        | some _ => (PushResult.returned none, [RemoteOp.createPage])
        | none =>
          let blocks := build_content_blocks g
          let idx := find_email_content_start_index blocks
          match append_blocks_in_chunks blocks.length idx net.appendFails with
          | (_, some _) => (PushResult.returned none, [RemoteOp.createPage, RemoteOp.appendBlocks])
          | (_, none) =>
            (PushResult.returned (some net.pageId), [RemoteOp.createPage, RemoteOp.appendBlocks])

/-- main.py stats dict (lines 242-251). -/
structure RunStats where
  emails_found : Nat := 0
  emails_processed : Nat := 0
  emails_skipped : Nat := 0
  gists_created : Nat := 0
  notion_published : Nat := 0
  local_saved : Nat := 0
  errors : Nat := 0
deriving DecidableEq, Repr

/-- The _last_run record (started_at/finished_at timestamps omitted). -/
structure LastRun where
  running : Bool
  phase : String
  stats : RunStats
deriving DecidableEq, Repr

/-- The pipeline flags of GistFlowPipeline relevant to run_once. -/
structure PipeState where
  is_running : Bool := false
  shutdown_requested : Bool := false
  last_run : Option LastRun := none
deriving DecidableEq, Repr

/-- Ledger (LocalStore) calls made while processing. -/
inductive LedgerOp where
  | recordError (messageId : List Char)
  | markProcessed (messageId : List Char)
deriving DecidableEq, Repr

/-- Outcome of the external stages for one email, as an oracle:
the content cleaner may raise; the cleaned content may be empty/too short;
extract_gist_with_fallback may raise an LLM API error; otherwise it returns
a Gist. -/
inductive EmailResult where
  | cleanRaises
  | cleanedTooShort
  | extractRaises
  | extracted (g : Gist)

/-- main.py lines 110-177: process_single_email.  A clean-stage or
extract-stage exception is caught by the handlers at lines 157-177, which
record the error in the ledger and return None.  When extraction returns a
gist, line 148 calls gist.is_fallback(); Gist defines no is_fallback
method, so the call raises AttributeError, which the catch-all at line 172
turns into a ledger error record and a None return as well.  The
too-short branch (lines 127-129) returns None without a ledger record. -/
def process_single_email (messageId : List Char) (r : EmailResult) :
    Option Gist × List LedgerOp :=
  match r with
  | EmailResult.cleanRaises => (none, [LedgerOp.recordError messageId])
  | EmailResult.cleanedTooShort => (none, [])
  | EmailResult.extractRaises => (none, [LedgerOp.recordError messageId])
  | EmailResult.extracted _ => (none, [LedgerOp.recordError messageId])

/-- main.py lines 294-340: the per-email loop body of run_once.  When
process_single_email returns a gist (unreachable, see above), line 302
marks it processed and line 321 calls gist.is_valuable(min_score=...),
which raises TypeError (no such parameter); the per-email handler at line
329 records the error, counts the email as skipped and adds one error.
When it returns None, the email only counts as skipped (line 328). -/
def procStep (acc : RunStats × List LedgerOp) (em : List Char × EmailResult) :
    RunStats × List LedgerOp :=
  match process_single_email em.1 em.2 with
  | (some _, ops) =>
    ({ acc.1 with
        emails_processed := acc.1.emails_processed + 1
        emails_skipped := acc.1.emails_skipped + 1
        errors := acc.1.errors + 1 }
    , acc.2 ++ ops ++ [LedgerOp.markProcessed em.1, LedgerOp.recordError em.1])
  | (none, ops) =>
    ({ acc.1 with emails_skipped := acc.1.emails_skipped + 1 }, acc.2 ++ ops)

/-- Result of one run_once call: the returned stats dict (with its optional
error_message entry), the pipeline state afterwards, and the ledger trace. -/
structure RunResult where
  stats : RunStats
  error_message : Option String := none
  state : PipeState
  ledger : List LedgerOp
deriving DecidableEq, Repr

/-- The stats dict returned by the busy early-return (main.py lines 222-233). -/
def busyStats : RunStats := { errors := 1 }

/-- main.py lines 212-379: run_once, sequential-call semantics (the flags
are read and written by this one call; a concurrent mutation between two
statements is outside this model).  Note lines 259-274: when
shutdown_requested is already set the email list is discarded and the
phase becomes 已中断; nothing in run_once ever resets shutdown_requested. -/
def run_once (s : PipeState) (emails : List (List Char × EmailResult)) : RunResult :=
  if s.is_running then
    { stats := busyStats
    , error_message := some ("任务正在执行中，请稍后再试")
    , state := s
    , ledger := [] }
  else
    let emailsEff := if s.shutdown_requested then [] else emails
    let stats0 : RunStats := { emails_found := emailsEff.length }
    match emailsEff.foldl procStep (stats0, []) with
    | (stats1, ledger) =>
      let finalPhase : String :=
        if s.shutdown_requested then "已中断"
        else if stats1.errors ≠ 0 then "已完成（有错误）"
        else "已完成"
      { stats := stats1
      , error_message := none
      , state := { s with
                    is_running := false
                    last_run := some { running := false, phase := finalPhase, stats := stats1 } }
      , ledger := ledger }

/-- Inline text of the C1 counterexample: 1001 characters marked bold
followed by 1000 plain characters. -/
def emphTail : List Char :=
  '*' :: '*' :: (List.replicate 1001 'a' ++ ('*' :: '*' :: List.replicate 1000 'b'))

/-- Concrete input for the C1 counterexample: a heading whose inline text
is 1001 bold characters followed by 1000 plain characters. -/
def c1text : List Char := '#' :: ' ' :: emphTail

/-- A concrete non-spam, low-score gist. -/
def lowGist : Gist :=
  { title := ("t".toList), summary := ("s".toList), score := 10 }

/-- A concrete spam gist. -/
def spamGist : Gist :=
  { title := ("t".toList), summary := ("s".toList), score := 80, is_spam_or_irrelevant := true }

/-- A concrete extracted gist for the orchestrator theorems. -/
def okGist : Gist :=
  { title := ("t".toList), summary := ("s".toList), score := 50 }

/-- A remote oracle whose calls all succeed. -/
def net0 : RemoteOracle := {}

/-- The ledger trace run_once produces: the per-email ledger writes of
process_single_email, in email order. -/
def runLedgerOps (emails : List (List Char × EmailResult)) : List LedgerOp :=
  (emails.map (fun em => (process_single_email em.1 em.2).2)).flatten

/-- Retry helper: a non-retryable error returned by attempt k ends the loop
at attempt k whatever fuel remains. -/
theorem retryGo_nonretryable (retryable : NotionErr → Bool) (attempt : Nat → Option NotionErr)
    (e : NotionErr) (k : Nat) (h : retryable e = false) (hk : attempt k = some e) :
    ∀ fuel, retryGo retryable attempt fuel k = (some e, k) := by
  intro fuel
  cases fuel with
  | zero => simp [retryGo, hk]
  | succ fuel => simp [retryGo, hk, h]

/-- Retry helper: a persistently failing retryable error exhausts all the
fuel and surfaces at attempt fuel + k. -/
theorem retryGo_persistent (retryable : NotionErr → Bool) (attempt : Nat → Option NotionErr)
    (e : NotionErr) (h : ∀ k, attempt k = some e) (he : retryable e = true) :
    ∀ fuel k, retryGo retryable attempt fuel k = (some e, fuel + k) := by
  intro fuel
  induction fuel with
  | zero => intro k; simp [retryGo, h k]
  | succ fuel ih =>
    intro k
    simp only [retryGo, h k, he, if_true]
    rw [ih (k + 1)]
    have harith : fuel + (k + 1) = fuel + 1 + k := by omega
    rw [harith]

/-- C6 counterexample: an API validation error and an API auth error are
APIResponseError instances, so the retry predicate accepts them and both
wrappers make all 5 attempts instead of propagating after the first —
refuting the claim that validation/auth errors are never retried. -/
theorem c6_counterexample :
    create_page_with_retry (fun _ => some NotionErr.apiValidation)
      = (some NotionErr.apiValidation, 5)
    ∧ append_blocks_with_retry (fun _ => some NotionErr.apiAuth)
      = (some NotionErr.apiAuth, 5)
    ∧ (5 : Nat) ≠ 1 := by
  refine ⟨?_, ?_, by decide⟩
  · show with_retry 5 notionRetryable _ = _
    unfold with_retry
    rw [retryGo_persistent notionRetryable _ NotionErr.apiValidation (fun _ => rfl) rfl]
  · show with_retry 5 notionRetryable _ = _
    unfold with_retry
    rw [retryGo_persistent notionRetryable _ NotionErr.apiAuth (fun _ => rfl) rfl]

/-- C6 amended: the retry policy of _create_page_with_retry and
_append_blocks_with_retry is purely isinstance-based — exactly
HTTPResponseError, APIResponseError, ConnectionError and TimeoutError are
retried (up to 5 attempts), which includes API validation/auth errors;
an error outside these types propagates after the first attempt with no
retry. -/
theorem c6_amended_retry_types (attempt : Nat → Option NotionErr) (e : NotionErr) :
    (attempt 1 = some e → notionRetryable e = false →
      create_page_with_retry attempt = (some e, 1)
      ∧ append_blocks_with_retry attempt = (some e, 1))
    ∧ ((∀ k, attempt k = some e) → notionRetryable e = true →
      create_page_with_retry attempt = (some e, 5)
      ∧ append_blocks_with_retry attempt = (some e, 5)) := by
  constructor
  · intro h1 h2
    constructor
    · show with_retry 5 notionRetryable _ = _
      unfold with_retry
      exact retryGo_nonretryable notionRetryable attempt e 1 h2 h1 _
    · show with_retry 5 notionRetryable _ = _
      unfold with_retry
      exact retryGo_nonretryable notionRetryable attempt e 1 h2 h1 _
  · intro h1 h2
    constructor
    · show with_retry 5 notionRetryable _ = _
      unfold with_retry
      rw [retryGo_persistent notionRetryable attempt e h1 h2]
    · show with_retry 5 notionRetryable _ = _
      unfold with_retry
      rw [retryGo_persistent notionRetryable attempt e h1 h2]

/-- Witness for c6_amended_retry_types: a ValueError is not retried (one
attempt), a connection error is retried to exhaustion (five attempts). -/
theorem c6_amended_retry_types_witness :
    ((fun (_ : Nat) => some NotionErr.valueErr) 1 = some NotionErr.valueErr
      ∧ notionRetryable NotionErr.valueErr = false
      ∧ create_page_with_retry (fun _ => some NotionErr.valueErr) = (some NotionErr.valueErr, 1))
    ∧ ((∀ k, (fun (_ : Nat) => some NotionErr.connErr) k = some NotionErr.connErr)
      ∧ notionRetryable NotionErr.connErr = true
      ∧ append_blocks_with_retry (fun _ => some NotionErr.connErr) = (some NotionErr.connErr, 5)) :=
  ⟨⟨rfl, rfl, ((c6_amended_retry_types (fun _ => some NotionErr.valueErr) NotionErr.valueErr).1
      rfl rfl).1⟩,
   ⟨fun _ => rfl, rfl, ((c6_amended_retry_types (fun _ => some NotionErr.connErr) NotionErr.connErr).2
      (fun _ => rfl) rfl).2⟩⟩

/-- C7: calling run_once while a run is in progress returns the busy stats
dict (errors = 1 and the busy error message), leaves the whole pipeline
state — including the in-progress run's _last_run stats — untouched, and
performs no processing (no ledger operations, no loop iterations). -/
theorem c7_single_flight (s : PipeState) (emails : List (List Char × EmailResult))
    (h : s.is_running = true) :
    run_once s emails
      = { stats := busyStats
        , error_message := some ("任务正在执行中，请稍后再试")
        , state := s
        , ledger := [] } := by
  simp [run_once, h]

/-- Witness for c7_single_flight at a concrete busy state. -/
theorem c7_single_flight_witness :
    ({ is_running := true } : PipeState).is_running = true
    ∧ run_once { is_running := true } [(("m".toList), EmailResult.cleanRaises)]
      = { stats := busyStats
        , error_message := some ("任务正在执行中，请稍后再试")
        , state := { is_running := true }
        , ledger := [] } :=
  ⟨rfl, c7_single_flight { is_running := true } [(("m".toList), EmailResult.cleanRaises)] rfl⟩

/-- C9: run_once never clears shutdown_requested.  Starting a run while the
flag is still set from an earlier request processes nothing (found = 0, no
ledger writes, phase 已中断) and leaves the flag set, so every later run is
interrupted as well — refuting the claim that a successful start clears the
flag before beginning the run. -/
theorem c9_shutdown_flag_persists_eval :
    run_once { shutdown_requested := true } [(("m1".toList), EmailResult.extracted okGist)]
      = { stats := {}
        , error_message := none
        , state := { is_running := false, shutdown_requested := true
                   , last_run := some { running := false, phase := "已中断", stats := {} } }
        , ledger := [] } := by
  rfl

/-- C10: push returns None for a spam gist before any remote call, but for
any non-spam gist the call gist.is_valuable(min_score=...) raises TypeError
(Gist.is_valuable takes no min_score parameter) before any remote call, so
a below-threshold gist never gets the claimed None return — and no page is
ever created.  Had the threshold check been reached, lowGist would have
failed it (is_valuable lowGist = false). -/
theorem c10_push_typeerror_eval :
    push net0 spamGist = (PushResult.returned none, [])
    ∧ push net0 lowGist = (PushResult.raisedTypeError, [])
    ∧ is_valuable lowGist = false := by
  exact ⟨rfl, rfl, rfl⟩

/-- process_single_email never returns a gist: every stage failure is
caught inside it, and the successful-extraction path dies at the undefined
gist.is_fallback() call, whose AttributeError the catch-all turns into an
error record and a None return. -/
theorem process_single_email_fst_none (mid : List Char) (r : EmailResult) :
    (process_single_email mid r).1 = none := by
  cases r <;> rfl

/-- procStep on one email: skipped increases by one and the email's ledger
writes are appended; every other counter is untouched. -/
theorem procStep_eq (st : RunStats) (lg : List LedgerOp) (em : List Char × EmailResult) :
    procStep (st, lg) em
      = ({ st with emails_skipped := st.emails_skipped + 1 }
        , lg ++ (process_single_email em.1 em.2).2) := by
  obtain ⟨mid, r⟩ := em
  cases r <;> rfl

/-- The per-email loop of run_once, folded over any email list: skipped
counts every email, the ledger collects the per-email writes in order, and
no other counter moves. -/
theorem procFold (emails : List (List Char × EmailResult)) :
    ∀ (st : RunStats) (lg : List LedgerOp),
    emails.foldl procStep (st, lg)
      = ({ st with emails_skipped := st.emails_skipped + emails.length }
        , lg ++ runLedgerOps emails) := by
  induction emails with
  | nil => intro st lg; simp [runLedgerOps]
  | cons em rest ih =>
    intro st lg
    rw [List.foldl_cons, procStep_eq, ih, Prod.mk.injEq]
    have hskip : st.emails_skipped + 1 + rest.length = st.emails_skipped + (em :: rest).length := by
      simp only [List.length_cons]
      omega
    have hled : lg ++ (process_single_email em.1 em.2).2 ++ runLedgerOps rest
        = lg ++ runLedgerOps (em :: rest) := by
      simp only [runLedgerOps, List.map_cons, List.flatten_cons, List.append_assoc]
    exact ⟨by rw [hskip], hled⟩

/-- Every ledger write the loop makes is an error record. -/
theorem runLedgerOps_only_errors (emails : List (List Char × EmailResult)) :
    ∀ op ∈ runLedgerOps emails, ∃ mid, op = LedgerOp.recordError mid := by
  intro op hop
  unfold runLedgerOps at hop
  rw [List.mem_flatten] at hop
  obtain ⟨l, hl, hop⟩ := hop
  rw [List.mem_map] at hl
  obtain ⟨em, _, hl⟩ := hl
  subst hl
  obtain ⟨mid, r⟩ := em
  cases r <;> simp [process_single_email] at hop <;> exact ⟨mid, hop⟩

/-- C8 counterexample: a clean-stage failure is recorded in the ledger and
the email is skipped, but the run's errors counter stays 0 — refuting the
claim that such a failure increments RunStats.errors. -/
theorem c8_counterexample :
    (run_once {} [(("m1".toList), EmailResult.cleanRaises)]).stats.errors = 0
    ∧ (run_once {} [(("m1".toList), EmailResult.cleanRaises)]).ledger
        = [LedgerOp.recordError ("m1".toList)]
    ∧ (run_once {} [(("m1".toList), EmailResult.cleanRaises)]).stats.emails_skipped = 1 := by
  exact ⟨rfl, rfl, rfl⟩

/-- C8 amended: any failure while processing one document is caught at the
per-document boundary (inside process_single_email), recorded as a ledger
error record, and the document is counted in emails_skipped — not in the
errors counter, which only counts failures escaping process_single_email
and therefore stays 0; the document is never marked processed and the loop
continues through every email. -/
theorem c8_amended_error_accounting (s : PipeState) (emails : List (List Char × EmailResult))
    (h1 : s.is_running = false) (h2 : s.shutdown_requested = false) :
    (run_once s emails).stats.errors = 0
    ∧ (run_once s emails).stats.emails_processed = 0
    ∧ (run_once s emails).stats.emails_skipped = emails.length
    ∧ (run_once s emails).ledger = runLedgerOps emails
    ∧ ∀ mid, LedgerOp.markProcessed mid ∉ (run_once s emails).ledger := by
  have hrun : run_once s emails
      = { stats := { emails_found := emails.length, emails_skipped := emails.length }
        , error_message := none
        , state := { s with
                      is_running := false
                      last_run := some { running := false, phase := "已完成"
                                       , stats := { emails_found := emails.length
                                                  , emails_skipped := emails.length } } }
        , ledger := runLedgerOps emails } := by
    unfold run_once
    rw [if_neg (by simp [h1])]
    simp only [h2, Bool.false_eq_true, if_false, procFold]
    simp
  rw [hrun]
  refine ⟨rfl, rfl, rfl, rfl, ?_⟩
  intro mid hmem
  obtain ⟨mid2, heq⟩ := runLedgerOps_only_errors emails _ hmem
  exact LedgerOp.noConfusion heq

/-- Witness for c8_amended_error_accounting on a concrete two-email run
with one extract-stage failure. -/
theorem c8_amended_error_accounting_witness :
    ({} : PipeState).is_running = false
    ∧ ({} : PipeState).shutdown_requested = false
    ∧ (run_once {} [(("a".toList), EmailResult.extractRaises)
                   , (("b".toList), EmailResult.cleanedTooShort)]).stats.errors = 0
    ∧ (run_once {} [(("a".toList), EmailResult.extractRaises)
                   , (("b".toList), EmailResult.cleanedTooShort)]).stats.emails_skipped = 2 :=
  ⟨rfl, rfl,
    (c8_amended_error_accounting {}
      [(("a".toList), EmailResult.extractRaises), (("b".toList), EmailResult.cleanedTooShort)]
      rfl rfl).1,
    (c8_amended_error_accounting {}
      [(("a".toList), EmailResult.extractRaises), (("b".toList), EmailResult.cleanedTooShort)]
      rfl rfl).2.2.1⟩

/-- The scan of _find_email_content_start_index returns None on any block
list with no sentinel heading. -/
theorem findEmailGo_none (l : List NBlock) (h : ∀ b ∈ l, isEmailContentHeading b = false) :
    ∀ i, findEmailGo i l = none := by
  induction l with
  | nil => intro i; rfl
  | cons b rest ih =>
    intro i
    unfold findEmailGo
    rw [h b (List.mem_cons_self b rest)]
    exact ih (fun x hx => h x (List.mem_cons_of_mem b hx)) (i + 1)

theorem summarySegment_no_sentinel (g : Gist) :
    ∀ b ∈ summarySegment g, isEmailContentHeading b = false := by
  intro b hb
  unfold summarySegment at hb
  split_ifs at hb
  · simp only [List.mem_cons, List.not_mem_nil, or_false] at hb
    rcases hb with h | h | h
    · subst h; decide
    · subst h; rfl
    · subst h; rfl
  · exact absurd hb (List.not_mem_nil b)

theorem insightsSegment_no_sentinel (g : Gist) :
    ∀ b ∈ insightsSegment g, isEmailContentHeading b = false := by
  intro b hb
  unfold insightsSegment at hb
  split_ifs at hb
  · simp only [List.mem_append, List.mem_cons, List.mem_map, List.not_mem_nil, or_false] at hb
    rcases hb with (h | ⟨x, hx, h⟩) | h
    · subst h; decide
    · subst h; rfl
    · subst h; rfl
  · exact absurd hb (List.not_mem_nil b)

theorem linksSegment_no_sentinel (g : Gist) :
    ∀ b ∈ linksSegment g, isEmailContentHeading b = false := by
  intro b hb
  unfold linksSegment at hb
  split_ifs at hb
  · simp only [List.mem_append, List.mem_cons, List.mem_map, List.not_mem_nil, or_false] at hb
    rcases hb with (h | ⟨x, hx, h⟩) | h
    · subst h; decide
    · subst h; rfl
    · subst h; rfl
  · exact absurd hb (List.not_mem_nil b)

theorem rawSegment_no_sentinel (g : Gist) :
    ∀ b ∈ rawSegment g, isEmailContentHeading b = false := by
  intro b hb
  rcases hraw : g.raw_markdown with _ | raw
  · simp only [rawSegment, hraw, List.not_mem_nil] at hb
  · simp only [rawSegment, hraw] at hb
    split_ifs at hb
    · exact absurd hb (List.not_mem_nil b)
    all_goals
      simp only [List.mem_cons, List.not_mem_nil, or_false] at hb
      subst hb
      rfl

theorem metaSegment_no_sentinel (g : Gist) :
    ∀ b ∈ metaSegment g, isEmailContentHeading b = false := by
  intro b hb
  rcases hid : g.original_id with _ | oid
  · simp only [metaSegment, hid, List.not_mem_nil] at hb
  · simp only [metaSegment, hid] at hb
    split_ifs at hb
    · exact absurd hb (List.not_mem_nil b)
    · simp only [List.mem_cons, List.not_mem_nil, or_false] at hb
      subst hb; rfl

/-- No top-level block of _build_content_blocks satisfies the sentinel
test: the heading_2 blocks it emits carry the section titles 摘要, 核心要点
and 相关链接, and the email original is a toggle block, not a heading_2
titled 邮件原文. -/
theorem build_content_blocks_no_sentinel (g : Gist) :
    ∀ b ∈ build_content_blocks g, isEmailContentHeading b = false := by
  intro b hb
  unfold build_content_blocks at hb
  simp only [List.mem_append, List.mem_cons, List.not_mem_nil, or_false] at hb
  rcases hb with ((((h | h) | h) | h) | h) | h
  · exact summarySegment_no_sentinel g b h
  · exact insightsSegment_no_sentinel g b h
  · exact linksSegment_no_sentinel g b h
  · exact rawSegment_no_sentinel g b h
  · subst h; rfl
  · exact metaSegment_no_sentinel g b h

/-- C5: for every gist, _find_email_content_start_index applied to the
output of _build_content_blocks returns None — the builder never emits the
heading_2 sentinel the finder looks for (it emits a toggle titled
邮件原文（点击展开） instead), so the email-content batch is never marked
critical; only batch 1 ever is. -/
theorem c5_email_sentinel_never_found (g : Gist) :
    find_email_content_start_index (build_content_blocks g) = none :=
  findEmailGo_none (build_content_blocks g) (build_content_blocks_no_sentinel g) 0

/-- Chunk loop helper: when no critical chunk in the list fails, the loop
visits every chunk, records exactly the failing ones and raises nothing. -/
theorem appendGo_all_ok (fails : Nat → Bool) (ec : Option Nat) :
    ∀ (l acc : List Nat),
    (∀ n ∈ l, (n = 1 ∨ ec = some n) → fails n = false) →
    appendChunksGo fails ec l acc = (acc ++ l.filter fails, none) := by
  intro l
  induction l with
  | nil => intro acc h; simp [appendChunksGo]
  | cons n rest ih =>
    intro acc h
    by_cases hf : fails n = true
    · have hcrit : ¬(n = 1 ∨ ec = some n) := by
        intro hc
        rw [h n (List.mem_cons_self n rest) hc] at hf
        exact Bool.false_ne_true hf
      unfold appendChunksGo
      rw [if_pos hf, if_neg hcrit, ih (acc ++ [n]) (fun m hm hc => h m (List.mem_cons_of_mem n hm) hc)]
      rw [List.filter_cons, if_pos hf]
      simp [List.append_assoc]
    · unfold appendChunksGo
      rw [if_neg hf, ih acc (fun m hm hc => h m (List.mem_cons_of_mem n hm) hc)]
      rw [List.filter_cons, if_neg hf]

/-- Chunk loop helper: the first critical failure ends the loop there: the
failures recorded are the failing chunks before it plus itself, and its
error is raised. -/
theorem appendGo_crit_fail (fails : Nat → Bool) (ec : Option Nat) (n : Nat)
    (hcrit : n = 1 ∨ ec = some n) (hf : fails n = true) :
    ∀ (l1 l2 acc : List Nat),
    (∀ m ∈ l1, (m = 1 ∨ ec = some m) → fails m = false) →
    appendChunksGo fails ec (l1 ++ n :: l2) acc = (acc ++ l1.filter fails ++ [n], some n) := by
  intro l1
  induction l1 with
  | nil =>
    intro l2 acc _
    unfold appendChunksGo
    simp [hf, hcrit]
  | cons m rest ih =>
    intro l2 acc h
    by_cases hfm : fails m = true
    · have hcm : ¬(m = 1 ∨ ec = some m) := by
        intro hc
        rw [h m (List.mem_cons_self m rest) hc] at hfm
        exact Bool.false_ne_true hfm
      rw [List.cons_append]
      unfold appendChunksGo
      rw [if_pos hfm, if_neg hcm, ih l2 (acc ++ [m]) (fun x hx hc => h x (List.mem_cons_of_mem m hx) hc)]
      rw [List.filter_cons, if_pos hfm]
      simp [List.append_assoc]
    · rw [List.cons_append]
      unfold appendChunksGo
      rw [if_neg hfm, ih l2 acc (fun x hx hc => h x (List.mem_cons_of_mem m hx) hc)]
      rw [List.filter_cons, if_neg hfm]

/-- C4: differentiated failure handling per batch criticality in
_append_blocks_in_chunks (chunk numbers are 1-based; a chunk is critical
when it is chunk 1 or the chunk holding the email-content start index).
Part 1: when every critical chunk succeeds, the loop visits all chunks,
completes without propagating any error (not aborted), and the recorded
failed chunks are exactly the failing (non-critical) ones.  Part 2: a
failing critical chunk, with every earlier critical chunk succeeding, is
recorded as failed, stops the loop (no later chunk is visited) and its
terminal error propagates to the caller. -/
theorem c4_append_chunks_criticality (numBlocks : Nat) (emailIdx : Option Nat)
    (fails : Nat → Bool) (hnb : 0 < numBlocks) :
    ((∀ n, n ∈ List.range' 1 ((numBlocks + 100 - 1) / 100) →
        (n = 1 ∨ emailIdx.map (fun i => i / 100 + 1) = some n) → fails n = false) →
      append_blocks_in_chunks numBlocks emailIdx fails
        = ((List.range' 1 ((numBlocks + 100 - 1) / 100)).filter fails, none))
    ∧
    (∀ n, n ∈ List.range' 1 ((numBlocks + 100 - 1) / 100) →
        (n = 1 ∨ emailIdx.map (fun i => i / 100 + 1) = some n) → fails n = true →
        (∀ m, m ∈ List.range' 1 ((numBlocks + 100 - 1) / 100) → m < n →
          (m = 1 ∨ emailIdx.map (fun i => i / 100 + 1) = some m) → fails m = false) →
      append_blocks_in_chunks numBlocks emailIdx fails
        = ((List.range' 1 (n - 1)).filter fails ++ [n], some n)) := by
  have htotal : 1 ≤ (numBlocks + 100 - 1) / 100 := by
    rw [Nat.one_le_div_iff (by omega)]
    omega
  constructor
  · intro h
    unfold append_blocks_in_chunks
    rw [if_neg (by omega)]
    dsimp only
    rw [appendGo_all_ok fails (emailIdx.map (fun i => i / 100 + 1)) _ [] h]
    dsimp only
    rw [if_neg]
    · simp
    · intro hcon
      obtain ⟨hlen, _⟩ := hcon
      have h1mem : 1 ∈ List.range' 1 ((numBlocks + 100 - 1) / 100) := by
        rw [List.mem_range'_1]
        omega
      have hf1 : fails 1 = false := h 1 h1mem (Or.inl rfl)
      have hsplit : List.range' 1 ((numBlocks + 100 - 1) / 100)
          = 1 :: List.range' 2 ((numBlocks + 100 - 1) / 100 - 1) := by
        have hsucc : (numBlocks + 100 - 1) / 100 = ((numBlocks + 100 - 1) / 100 - 1) + 1 := by
          omega
        rw [hsucc, List.range'_succ]
        have hfix1 : (numBlocks + 100 - 1) / 100 - 1 + 1 - 1 = (numBlocks + 100 - 1) / 100 - 1 := by
          omega
        rw [hfix1]
      rw [List.nil_append] at hlen
      rw [hsplit, List.filter_cons, if_neg (by simp [hf1])] at hlen
      have hle := List.length_filter_le fails (List.range' 2 ((numBlocks + 100 - 1) / 100 - 1))
      rw [List.length_range'] at hle
      omega
  · intro n hn hcrit hf hprev
    rw [List.mem_range'_1] at hn
    have hdecomp : List.range' 1 ((numBlocks + 100 - 1) / 100)
        = List.range' 1 (n - 1)
          ++ n :: List.range' (n + 1) ((numBlocks + 100 - 1) / 100 - n) := by
      have h3 : ((numBlocks + 100 - 1) / 100 - (n - 1)) + (n - 1) = (numBlocks + 100 - 1) / 100 := by
        omega
      rw [← h3, ← List.range'_append 1 (n - 1) ((numBlocks + 100 - 1) / 100 - (n - 1)) 1]
      have h1 : (1 : Nat) + 1 * (n - 1) = n := by omega
      have h2 : (numBlocks + 100 - 1) / 100 - (n - 1) = ((numBlocks + 100 - 1) / 100 - n) + 1 := by
        omega
      rw [h1, h2, List.range'_succ]
      have hfix2 : (numBlocks + 100 - 1) / 100 - n + 1 + (n - 1) - n
          = (numBlocks + 100 - 1) / 100 - n := by
        omega
      rw [hfix2]
    have hl1 : ∀ m ∈ List.range' 1 (n - 1),
        (m = 1 ∨ emailIdx.map (fun i => i / 100 + 1) = some m) → fails m = false := by
      intro m hm hc
      rw [List.mem_range'_1] at hm
      refine hprev m ?_ (by omega) hc
      rw [List.mem_range'_1]
      omega
    unfold append_blocks_in_chunks
    rw [if_neg (by omega)]
    dsimp only
    rw [hdecomp, appendGo_crit_fail fails (emailIdx.map (fun i => i / 100 + 1)) n hcrit hf
      (List.range' 1 (n - 1)) (List.range' (n + 1) ((numBlocks + 100 - 1) / 100 - n)) [] hl1]
    simp

/-- Witness for c4_append_chunks_criticality: 250 blocks make 3 chunks with
the email content in chunk 2.  When only non-critical chunk 3 fails, the
append completes with failed = [3] and no error; when critical chunk 2
fails, the loop stops there with failed = [2] and error from chunk 2. -/
theorem c4_append_chunks_criticality_witness :
    append_blocks_in_chunks 250 (some 120) (fun n => decide (n = 3)) = ([3], none)
    ∧ append_blocks_in_chunks 250 (some 120) (fun n => decide (n = 2)) = ([2], some 2) :=
  ⟨((c4_append_chunks_criticality 250 (some 120) (fun n => decide (n = 3)) (by decide)).1
      (by decide)).trans (by decide),
   ((c4_append_chunks_criticality 250 (some 120) (fun n => decide (n = 2)) (by decide)).2 2
      (by decide) (by decide) (by decide) (by decide)).trans (by decide)⟩

/-- Helper: the head of a list avoided by d cannot be d. -/
theorem neq_of_not_mem_cons {c d : Char} {rest : List Char} (h : d ∉ c :: rest) : ¬c = d :=
  fun hc => h (by subst hc; exact List.mem_cons_self _ _)

/-- Helper: a character absent from a cons is absent from its tail. -/
theorem not_mem_of_not_mem_cons {c d : Char} {rest : List Char} (h : d ∉ c :: rest) : d ∉ rest :=
  fun hm => h (List.mem_cons_of_mem c hm)

/-- splitChar returns the whole string when the separator does not occur. -/
theorem splitChar_single (sep : Char) (l : List Char) (h : sep ∉ l) :
    splitChar sep l = [l] := by
  induction l with
  | nil => rfl
  | cons c rest ih =>
    unfold splitChar
    rw [if_neg (neq_of_not_mem_cons h)]
    rw [ih (not_mem_of_not_mem_cons h)]

/-- splitNN returns the whole string when no newline occurs. -/
theorem splitNN_single (l : List Char) (h : '\n' ∉ l) : splitNN l = [l] := by
  induction l with
  | nil => rfl
  | cons c rest ih =>
    cases rest with
    | nil => rfl
    | cons c2 rest2 =>
      unfold splitNN
      rw [if_neg (fun hp => (neq_of_not_mem_cons h) hp.1)]
      rw [ih (not_mem_of_not_mem_cons h)]

/-- subPipes5 is the identity when the text has no pipe. -/
theorem subPipes5Go_id (l : List Char) (h : '|' ∉ l) : subPipes5Go 0 l = l := by
  induction l with
  | nil => rfl
  | cons c rest ih =>
    unfold subPipes5Go
    rw [if_neg (neq_of_not_mem_cons h)]
    simp [ih (not_mem_of_not_mem_cons h)]

theorem subPipes5_id (l : List Char) (h : '|' ∉ l) : subPipes5 l = l :=
  subPipes5Go_id l h

/-- subTableSep is the identity when the text has no pipe. -/
theorem subTSGo_id (l : List Char) (h : '|' ∉ l) :
    ∀ fuel, l.length ≤ fuel → subTSGo fuel l = l := by
  induction l with
  | nil => intro fuel _; cases fuel <;> rfl
  | cons c rest ih =>
    intro fuel hfuel
    cases fuel with
    | zero => simp at hfuel
    | succ fuel =>
      show subTSGo (fuel + 1) (c :: rest) = c :: rest
      unfold subTSGo
      dsimp only
      rw [if_neg (neq_of_not_mem_cons h)]
      rw [ih (not_mem_of_not_mem_cons h) fuel (by simpa using hfuel)]

theorem subTableSep_id (l : List Char) (h : '|' ∉ l) : subTableSep l = l :=
  subTSGo_id l h l.length (Nat.le_refl _)

/-- stripWs is the identity when neither end is whitespace. -/
theorem stripWs_eq_self (l : List Char)
    (h1 : ∀ c, l.head? = some c → pyIsSpace c = false)
    (h2 : ∀ c, l.getLast? = some c → pyIsSpace c = false) :
    stripWs l = l := by
  have hl : lstripWs l = l := by
    cases l with
    | nil => rfl
    | cons c t =>
      unfold lstripWs
      rw [List.dropWhile_cons, if_neg (by simp [h1 c rfl])]
  unfold stripWs
  rw [hl]
  unfold rstripWs
  cases hr : l.reverse with
  | nil =>
    simp only [List.dropWhile_nil, List.reverse_nil]
    exact (List.reverse_eq_nil_iff.mp hr).symm
  | cons c t =>
    have hc : pyIsSpace c = false := by
      apply h2
      rw [← List.head?_reverse, hr]
      rfl
    rw [List.dropWhile_cons, if_neg (by simp [hc]), ← hr, List.reverse_reverse]

/-- stripWs fixes a nonempty all-a replicate for a non-space character. -/
theorem stripWs_replicate (n : Nat) (a : Char) (ha : pyIsSpace a = false) :
    stripWs (List.replicate n a) = List.replicate n a := by
  apply stripWs_eq_self
  · intro c hc
    cases n with
    | zero => simp at hc
    | succ n =>
      rw [List.replicate_succ] at hc
      simp at hc
      exact hc ▸ ha
  · intro c hc
    have hmem : c ∈ List.replicate n a := List.mem_of_mem_getLast? hc
    have hca : c = a := List.eq_of_mem_replicate hmem
    rw [hca]
    exact ha

/-- The link regex never matches when the text has no opening bracket. -/
theorem findLinkGo_none (l : List Char) (h : '[' ∉ l) : ∀ p, findLinkGo p l = none := by
  induction l with
  | nil => intro p; rfl
  | cons c rest ih =>
    intro p
    unfold findLinkGo
    have hm : matchLinkAt (c :: rest) = none := by
      unfold matchLinkAt
      dsimp only
      rw [if_neg (neq_of_not_mem_cons h)]
    rw [hm]
    exact ih (not_mem_of_not_mem_cons h) (p + 1)

/-- Neither emphasis regex matches when the text has no star. -/
theorem findEmphGo_none (l : List Char) (h : '*' ∉ l) :
    ∀ prev p, findEmphGo prev p l = none := by
  induction l with
  | nil => intro prev p; rfl
  | cons c rest ih =>
    intro prev p
    have hc : ¬c = '*' := neq_of_not_mem_cons h
    unfold findEmphGo
    have hb : matchBoldAt (c :: rest) = none := by
      unfold matchBoldAt
      cases rest with
      | nil => rfl
      | cons c2 rest2 =>
        dsimp only
        rw [if_neg (fun hp => hc hp.1)]
    have hi : matchItalAt prev (c :: rest) = none := by
      unfold matchItalAt
      dsimp only
      rw [if_neg hc]
    rw [hb, hi]
    exact ih (not_mem_of_not_mem_cons h) (some c) (p + 1)

/-- Helper: a character distinct from a never occurs in replicate n a. -/
theorem not_mem_replicate_char {c a : Char} (h : ¬c = a) (n : Nat) :
    c ∉ List.replicate n a := by
  intro hm
  exact h (List.eq_of_mem_replicate hm)

/-- A nonempty run of the letter a is not a table-separator line. -/
theorem isTableSepLine_replicate_a (n : Nat) :
    isTableSepLine (List.replicate n 'a') = false := by
  cases n with
  | zero => rfl
  | succ n =>
    rw [List.replicate_succ]
    simp [isTableSepLine, List.all_cons, sepClassB, pyIsSpace]

/-- _parse_bold_italic on a plain run of n letters a: one plain rich_text
item holding only the first 2000 characters (the rest are discarded by
_truncate_for_notion). -/
theorem parse_bold_italic_replicate_a (n : Nat) (hn : 0 < n) :
    parse_bold_italic (List.replicate n 'a')
      = [plainItem (List.replicate (min 2000 n) 'a')] := by
  obtain ⟨m, rfl⟩ : ∃ m, n = m + 1 := ⟨n - 1, by omega⟩
  have hne : (List.replicate (m + 1) 'a').isEmpty = false := by
    rw [List.replicate_succ]
    rfl
  have hstar : '*' ∉ List.replicate (m + 1) 'a' := not_mem_replicate_char (by decide) (m + 1)
  have hgo : parseBoldItalicGo (m + 1) (List.replicate (m + 1) 'a')
      = [plainItem (List.replicate (min 2000 (m + 1)) 'a')] := by
    unfold parseBoldItalicGo
    rw [hne]
    simp only [Bool.false_eq_true, if_false]
    unfold findEmph
    rw [findEmphGo_none _ hstar none 0]
    rw [truncate_for_notion, NOTION_RICH_TEXT_MAX, List.take_replicate]
  unfold parse_bold_italic
  rw [hne]
  simp only [Bool.false_eq_true, if_false, List.length_replicate]
  rw [hgo]
  rfl

/-- _parse_markdown_inline on a plain run of n letters a: same single
truncated item (there is no link to find). -/
theorem parse_markdown_inline_replicate_a (n : Nat) (hn : 0 < n) :
    parse_markdown_inline (List.replicate n 'a')
      = [plainItem (List.replicate (min 2000 n) 'a')] := by
  obtain ⟨m, rfl⟩ : ∃ m, n = m + 1 := ⟨n - 1, by omega⟩
  have hne : (List.replicate (m + 1) 'a').isEmpty = false := by
    rw [List.replicate_succ]
    rfl
  have hbr : '[' ∉ List.replicate (m + 1) 'a' := not_mem_replicate_char (by decide) (m + 1)
  have hgo : parseInlineGo (m + 1) (List.replicate (m + 1) 'a')
      = [plainItem (List.replicate (min 2000 (m + 1)) 'a')] := by
    unfold parseInlineGo
    rw [hne]
    simp only [Bool.false_eq_true, if_false]
    unfold findLink
    rw [findLinkGo_none _ hbr 0]
    exact parse_bold_italic_replicate_a (m + 1) (Nat.succ_pos m)
  unfold parse_markdown_inline
  rw [hne]
  simp only [Bool.false_eq_true, if_false, List.length_replicate]
  rw [hgo]
  rfl

/-- The length-limit loop on a single item that already fits: one
paragraph block holding exactly that item. -/
theorem chunkRich_single (it : RichItem) (h : it.content.length ≤ 2000) :
    chunkRich [it] = [NBlock.paragraph [it]] := by
  unfold chunkRich chunkStep
  simp [NOTION_RICH_TEXT_MAX, h]

/-- _parse_markdown_to_blocks on a plain run of n > 0 letters a (no blank
lines, no markers): exactly one paragraph block whose single run holds the
first min 2000 n characters; everything beyond 2000 is dropped. -/
theorem parse_blocks_replicate_a (n : Nat) (hn : 0 < n) :
    parse_markdown_to_blocks (List.replicate n 'a')
      = [NBlock.paragraph [plainItem (List.replicate (min 2000 n) 'a')]] := by
  obtain ⟨m, rfl⟩ : ∃ m, n = m + 1 := ⟨n - 1, by omega⟩
  have hne : (List.replicate (m + 1) 'a').isEmpty = false := by
    rw [List.replicate_succ]
    rfl
  have hnl : '\n' ∉ List.replicate (m + 1) 'a' := not_mem_replicate_char (by decide) (m + 1)
  have hpipe : '|' ∉ List.replicate (m + 1) 'a' := not_mem_replicate_char (by decide) (m + 1)
  have hstrip : stripWs (List.replicate (m + 1) 'a') = List.replicate (m + 1) 'a' :=
    stripWs_replicate (m + 1) 'a' (by decide)
  have hhead : (List.replicate (m + 1) 'a').head? = some 'a' := by
    rw [List.replicate_succ]
    rfl
  have hfence : isPrefixList ("```".toList) (List.replicate (m + 1) 'a') = false := by
    rw [List.replicate_succ]
    rfl
  have hbul1 : isPrefixList ("- ".toList) (List.replicate (m + 1) 'a') = false := by
    rw [List.replicate_succ]
    rfl
  have hbul2 : isPrefixList ("* ".toList) (List.replicate (m + 1) 'a') = false := by
    rw [List.replicate_succ]
    rfl
  have hnum : matchesNumDot (List.replicate (m + 1) 'a') = false := by
    rw [List.replicate_succ]
    rfl
  have hpp : processPara (List.replicate (m + 1) 'a')
      = chunkRich (parse_markdown_inline (List.replicate (m + 1) 'a')) := by
    unfold processPara
    rw [hne]
    simp only [Bool.false_eq_true, if_false]
    rw [hhead]
    rw [if_neg (by decide)]
    rw [hfence]
    simp only [Bool.false_eq_true, if_false]
    rw [hbul1, hbul2]
    simp only [Bool.or_false, Bool.false_eq_true, if_false]
    rw [hnum]
    simp only [Bool.false_eq_true, if_false]
  unfold parse_markdown_to_blocks
  rw [hne]
  simp only [Bool.false_eq_true, if_false]
  rw [splitChar_single '\n' _ hnl]
  rw [List.filter_cons, if_pos (by rw [hstrip, isTableSepLine_replicate_a]; rfl), List.filter_nil]
  rw [show List.intercalate ['\n'] [List.replicate (m + 1) 'a'] = List.replicate (m + 1) 'a' by
    simp [List.intercalate]]
  rw [subPipes5_id _ hpipe, subTableSep_id _ hpipe, splitNN_single _ hnl]
  rw [List.map_cons, List.map_nil, hstrip, List.flatten_cons, List.flatten_nil, List.append_nil]
  rw [hpp, parse_markdown_inline_replicate_a (m + 1) (Nat.succ_pos m)]
  apply chunkRich_single
  simp [plainItem]

/-- C3: Scenario A evaluated on the code: an input of exactly 4500
characters with no blank lines yields ONE paragraph block whose single run
holds only the first 2000 characters — not three blocks of lengths
2000/2000/500.  The 2000-limit split branch of _parse_markdown_to_blocks is
unreachable because _parse_bold_italic already truncated every run to 2000
characters via _truncate_for_notion. -/
theorem c3_scenarioA_eval :
    parse_markdown_to_blocks (List.replicate 4500 'a')
      = [NBlock.paragraph [plainItem (List.replicate 2000 'a')]]
    ∧ (parse_markdown_to_blocks (List.replicate 4500 'a')).length = 1 := by
  have h := parse_blocks_replicate_a 4500 (by norm_num)
  rw [show min 2000 4500 = 2000 from by norm_num] at h
  exact ⟨h, by rw [h]; rfl⟩

/-- C2: lossless reconstruction fails — for an input of 2500 identical
characters, the concatenation of all run texts of the transformer output is
only the first 2000 characters: 500 characters are silently dropped by the
truncation in _parse_bold_italic, refuting "runs are split, never
truncated". -/
theorem c2_truncation_eval :
    concatRunTexts (parse_markdown_to_blocks (List.replicate 2500 'a'))
      = List.replicate 2000 'a'
    ∧ (concatRunTexts (parse_markdown_to_blocks (List.replicate 2500 'a'))).length
        < (List.replicate 2500 'a').length := by
  have h := parse_blocks_replicate_a 2500 (by norm_num)
  rw [show min 2000 2500 = 2000 from by norm_num] at h
  have hc : concatRunTexts (parse_markdown_to_blocks (List.replicate 2500 'a'))
      = List.replicate 2000 'a' := by
    rw [h]
    simp only [concatRunTexts, List.map_cons, List.map_nil, blockRuns, plainItem,
      List.flatten_cons, List.flatten_nil, List.append_nil]
  refine ⟨hc, ?_⟩
  rw [hc]
  simp only [List.length_replicate]
  norm_num

/-- takeWhile passes over a replicate of a satisfying character. -/
theorem takeWhile_replicate_append (p : Char → Bool) (n : Nat) (a : Char) (l : List Char)
    (h : p a = true) :
    List.takeWhile p (List.replicate n a ++ l) = List.replicate n a ++ List.takeWhile p l := by
  induction n with
  | zero => simp
  | succ n ih => simp [List.replicate_succ, List.takeWhile_cons, h, ih]

/-- Characters other than star, a and b do not occur in emphTail. -/
theorem not_mem_emphTail {c : Char} (h3 : ¬c = '*') (h4 : ¬c = 'a') (h5 : ¬c = 'b') :
    c ∉ emphTail := by
  intro hm
  simp only [emphTail, List.mem_cons, List.mem_append, List.mem_replicate, h3, h4, h5,
    and_false, false_and, or_false, false_or, or_self] at hm

/-- Characters other than hash, space, star, a and b do not occur in c1text. -/
theorem not_mem_c1text {c : Char} (h1 : ¬c = '#') (h2 : ¬c = ' ') (h3 : ¬c = '*')
    (h4 : ¬c = 'a') (h5 : ¬c = 'b') : c ∉ c1text := by
  intro hm
  simp only [c1text, List.mem_cons, h1, h2, false_or] at hm
  exact not_mem_emphTail h3 h4 h5 hm

theorem getLast_starB : ('*' :: '*' :: List.replicate 1000 'b').getLast? = some 'b' := by
  rw [show (1000 : Nat) = 999 + 1 from rfl, List.replicate_succ']
  rw [← List.cons_append, ← List.cons_append]
  exact List.getLast?_concat _

theorem getLast_emphTail : emphTail.getLast? = some 'b' := by
  unfold emphTail
  rw [← List.cons_append, ← List.cons_append, List.getLast?_append]
  rw [getLast_starB]
  rfl

theorem stripWs_emphTail : stripWs emphTail = emphTail := by
  apply stripWs_eq_self
  · intro c hc
    rw [show emphTail.head? = some '*' from rfl] at hc
    cases hc
    rfl
  · intro c hc
    rw [getLast_emphTail] at hc
    cases hc
    rfl

theorem stripWs_c1text : stripWs c1text = c1text := by
  apply stripWs_eq_self
  · intro c hc
    rw [show c1text.head? = some '#' from rfl] at hc
    cases hc
    rfl
  · intro c hc
    have hl : c1text.getLast? = some 'b' := by
      show (('#') :: (' ') :: emphTail).getLast? = some 'b'
      rw [show emphTail = '*' :: '*' :: (List.replicate 1001 'a'
            ++ ('*' :: '*' :: List.replicate 1000 'b')) from rfl]
      rw [List.getLast?_cons_cons, List.getLast?_cons_cons, List.getLast?_cons_cons]
      rw [← List.cons_append, List.getLast?_append, getLast_starB]
      rfl
    rw [hl] at hc
    cases hc
    rfl

theorem replicate1001_ne : (List.replicate 1001 'a').isEmpty = false := by
  rw [show (1001 : Nat) = 1000 + 1 from rfl, List.replicate_succ]
  rfl

/-- The bold regex matches at the start of emphTail, capturing the 1001 a
characters and consuming 1005 characters. -/
theorem matchBoldAt_emphTail :
    matchBoldAt emphTail = some (1005, List.replicate 1001 'a') := by
  unfold emphTail matchBoldAt
  dsimp only
  rw [if_pos ⟨rfl, rfl⟩]
  rw [takeWhile_replicate_append _ _ _ _ (by decide)]
  rw [show List.takeWhile (fun c => c ≠ '*') ('*' :: '*' :: List.replicate 1000 'b') = []
    from rfl]
  rw [List.append_nil, replicate1001_ne]
  simp only [Bool.false_eq_true, if_false]
  rw [List.drop_left]
  dsimp only
  rw [if_pos ⟨rfl, rfl⟩]
  rw [List.length_replicate]

/-- The emphasis search on emphTail finds the bold match at position 0. -/
theorem findEmph_emphTail :
    findEmph emphTail = some (0, 1005, true, List.replicate 1001 'a') := by
  unfold findEmph
  rw [show emphTail = '*' :: '*' :: (List.replicate 1001 'a'
        ++ ('*' :: '*' :: List.replicate 1000 'b')) from rfl]
  unfold findEmphGo
  rw [show matchBoldAt ('*' :: '*' :: (List.replicate 1001 'a'
        ++ ('*' :: '*' :: List.replicate 1000 'b'))) = some (1005, List.replicate 1001 'a')
    from matchBoldAt_emphTail]

theorem replicate1000b_ne : (List.replicate 1000 'b').isEmpty = false := by
  rw [show (1000 : Nat) = 999 + 1 from rfl, List.replicate_succ]
  rfl

/-- After the bold match is consumed, the rest of emphTail is the plain b
run. -/
theorem emphTail_drop_1005 : emphTail.drop 1005 = List.replicate 1000 'b' := by
  rw [show emphTail = '*' :: '*' :: (List.replicate 1001 'a'
        ++ ('*' :: '*' :: List.replicate 1000 'b')) from rfl]
  rw [show (1005 : Nat) = 1004 + 1 from rfl, List.drop_succ_cons]
  rw [show (1004 : Nat) = 1003 + 1 from rfl, List.drop_succ_cons]
  rw [show (1003 : Nat) = 1001 + 2 from rfl, ← List.drop_drop]
  rw [List.drop_left' (List.length_replicate 1001 'a')]
  rw [show (2 : Nat) = 1 + 1 from rfl, List.drop_succ_cons, List.drop_succ_cons, List.drop_zero]

/-- _parse_bold_italic on emphTail: the 1001-character bold run (it
survives truncation) followed by the 1000-character plain run. -/
theorem parse_bold_italic_emphTail :
    parse_bold_italic emphTail
      = [fmtItem true (List.replicate 1001 'a'), plainItem (List.replicate 1000 'b')] := by
  have hlen : emphTail.length = 2005 := by
    simp only [emphTail, List.length_cons, List.length_append, List.length_replicate]
  have hne : emphTail.isEmpty = false := rfl
  have hgo2 : parseBoldItalicGo 2004 (List.replicate 1000 'b')
      = [plainItem (List.replicate 1000 'b')] := by
    rw [show (2004 : Nat) = 2003 + 1 from rfl]
    rw [parseBoldItalicGo]
    rw [replicate1000b_ne]
    simp only [Bool.false_eq_true, if_false]
    unfold findEmph
    rw [findEmphGo_none _ (not_mem_replicate_char (by decide) 1000) none 0]
    rw [truncate_for_notion, NOTION_RICH_TEXT_MAX, List.take_replicate]
    rw [show min 2000 1000 = 1000 from by norm_num]
  unfold parse_bold_italic
  rw [hne]
  simp only [Bool.false_eq_true, if_false, hlen]
  rw [show (2005 : Nat) = 2004 + 1 from rfl]
  rw [parseBoldItalicGo]
  rw [hne]
  simp only [Bool.false_eq_true, if_false]
  rw [findEmph_emphTail]
  dsimp only
  rw [List.take_zero]
  simp only [List.isEmpty_nil, if_true]
  rw [emphTail_drop_1005, hgo2]
  rw [truncate_for_notion, NOTION_RICH_TEXT_MAX, List.take_replicate]
  rw [show min 2000 1001 = 1001 from by norm_num]
  rfl

theorem emphTail_length : emphTail.length = 2005 := by
  simp only [emphTail, List.length_cons, List.length_append, List.length_replicate]

/-- _parse_markdown_inline on emphTail: no link, so the result is the
_parse_bold_italic output — one bold run of 1001 characters and one plain
run of 1000 characters. -/
theorem parse_markdown_inline_emphTail :
    parse_markdown_inline emphTail
      = [fmtItem true (List.replicate 1001 'a'), plainItem (List.replicate 1000 'b')] := by
  have hne : emphTail.isEmpty = false := rfl
  have hbr : '[' ∉ emphTail := not_mem_emphTail (by decide) (by decide) (by decide)
  unfold parse_markdown_inline
  rw [hne]
  simp only [Bool.false_eq_true, if_false, emphTail_length]
  rw [show (2005 : Nat) = 2004 + 1 from rfl]
  rw [parseInlineGo]
  rw [hne]
  simp only [Bool.false_eq_true, if_false]
  unfold findLink
  rw [findLinkGo_none _ hbr 0]
  rw [parse_bold_italic_emphTail]
  dsimp only
  simp only [List.isEmpty_cons, Bool.false_eq_true, if_false]

theorem lstrip_emphTail : lstripWs emphTail = emphTail := by
  unfold lstripWs
  rw [show emphTail = '*' :: '*' :: (List.replicate 1001 'a'
        ++ ('*' :: '*' :: List.replicate 1000 'b')) from rfl]
  rw [List.dropWhile_cons, if_neg (by decide)]

theorem stripWs_space_emphTail : stripWs (' ' :: emphTail) = emphTail := by
  unfold stripWs
  rw [show lstripWs (' ' :: emphTail) = lstripWs emphTail from by
    unfold lstripWs
    rw [List.dropWhile_cons, if_pos (show pyIsSpace ' ' = true from rfl)]]
  rw [lstrip_emphTail]
  have h := stripWs_emphTail
  unfold stripWs at h
  rw [lstrip_emphTail] at h
  exact h

theorem isTableSepLine_c1text : isTableSepLine c1text = false := by
  rw [show c1text = '#' :: (' ' :: emphTail) from rfl]
  unfold isTableSepLine
  rw [List.all_cons]
  rw [show sepClassB '#' = false from rfl]
  simp only [Bool.false_and, Bool.and_false]

/-- The classification of c1text: a level-1 heading whose inline text is
emphTail. -/
theorem processPara_c1text :
    processPara c1text = [NBlock.heading 1 (parse_markdown_inline emphTail)] := by
  unfold processPara
  rw [show c1text.isEmpty = false from rfl]
  simp only [Bool.false_eq_true, if_false]
  rw [show c1text.head? = some '#' from rfl, if_pos rfl]
  rw [show List.takeWhile (fun c => c = '#') c1text = ['#'] from rfl]
  rw [show List.dropWhile (fun c => c = '#') c1text = ' ' :: emphTail from rfl]
  rw [stripWs_space_emphTail]
  rw [show emphTail.isEmpty = false from rfl]
  simp only [Bool.false_eq_true, if_false, List.length_cons, List.length_nil]
  norm_num

/-- _parse_markdown_to_blocks on c1text: exactly one heading block built
from the inline parse of emphTail. -/
theorem parse_blocks_c1text :
    parse_markdown_to_blocks c1text = [NBlock.heading 1 (parse_markdown_inline emphTail)] := by
  have hnl : '\n' ∉ c1text :=
    not_mem_c1text (by decide) (by decide) (by decide) (by decide) (by decide)
  have hpipe : '|' ∉ c1text :=
    not_mem_c1text (by decide) (by decide) (by decide) (by decide) (by decide)
  unfold parse_markdown_to_blocks
  rw [show c1text.isEmpty = false from rfl]
  simp only [Bool.false_eq_true, if_false]
  rw [splitChar_single '\n' _ hnl]
  rw [List.filter_cons, if_pos (by rw [stripWs_c1text, isTableSepLine_c1text]; rfl),
    List.filter_nil]
  rw [show List.intercalate ['\n'] [c1text] = c1text from by simp [List.intercalate]]
  rw [subPipes5_id _ hpipe, subTableSep_id _ hpipe, splitNN_single _ hnl]
  rw [List.map_cons, List.map_nil, stripWs_c1text, List.flatten_cons, List.flatten_nil,
    List.append_nil]
  exact processPara_c1text

/-- C1 counterexample: on c1text the transformer emits one heading block
whose rich_text runs sum to 2001 characters, exceeding MAX_UNIT_LEN = 2000
— refuting "every leaf block has serialized text length at most 2000".
(Each individual run is at most 2000; only paragraph blocks get the
sum-bounding chunk loop.) -/
theorem c1_counterexample :
    (parse_markdown_to_blocks c1text).map (fun b => sumRunLens (blockRuns b)) = [2001]
    ∧ ¬(2001 ≤ 2000) := by
  constructor
  · rw [parse_blocks_c1text, parse_markdown_inline_emphTail]
    simp only [List.map_cons, List.map_nil, blockRuns, sumRunLens, fmtItem, plainItem,
      if_true, List.length_replicate, List.sum_cons, List.sum_nil]
    norm_num
  · norm_num

/-- Every truncated text holds at most 2000 characters. -/
theorem truncate_le (t : List Char) : (truncate_for_notion t).length ≤ 2000 := by
  rw [truncate_for_notion, NOTION_RICH_TEXT_MAX, List.length_take]
  exact Nat.min_le_left _ _

theorem fmtItem_content (isBold : Bool) (t : List Char) : (fmtItem isBold t).content = t := by
  cases isBold <;> rfl

theorem linkify_content (u : List Char) (it : RichItem) : (linkify u it).content = it.content := rfl

/-- Every run _parse_bold_italic emits went through _truncate_for_notion,
so it holds at most 2000 characters. -/
theorem parseBoldItalicGo_runs (fuel : Nat) :
    ∀ (s : List Char) (r : RichItem), r ∈ parseBoldItalicGo fuel s → r.content.length ≤ 2000 := by
  induction fuel with
  | zero =>
    intro s r hr
    unfold parseBoldItalicGo at hr
    split_ifs at hr
    · exact absurd hr (List.not_mem_nil r)
    · simp only [List.mem_cons, List.not_mem_nil, or_false] at hr
      subst hr
      exact truncate_le s
  | succ fuel ih =>
    intro s r hr
    unfold parseBoldItalicGo at hr
    split_ifs at hr
    · exact absurd hr (List.not_mem_nil r)
    · cases hfe : findEmph s with
      | none =>
        rw [hfe] at hr
        simp only [List.mem_cons, List.not_mem_nil, or_false] at hr
        subst hr
        exact truncate_le s
      | some q =>
        obtain ⟨start, stop, isBold, content⟩ := q
        rw [hfe] at hr
        simp only [List.mem_append, List.mem_cons, List.not_mem_nil, or_false] at hr
        rcases hr with (hr | hr) | hr
        · split_ifs at hr
          · exact absurd hr (List.not_mem_nil r)
          · simp only [List.mem_cons, List.not_mem_nil, or_false] at hr
            subst hr
            exact truncate_le _
        · subst hr
          rw [fmtItem_content]
          exact truncate_le _
        · exact ih _ r hr

theorem parse_bold_italic_runs (text : List Char) :
    ∀ r ∈ parse_bold_italic text, r.content.length ≤ 2000 := by
  intro r hr
  unfold parse_bold_italic at hr
  dsimp only at hr
  split_ifs at hr
  · exact absurd hr (List.not_mem_nil r)
  · simp only [List.mem_cons, List.not_mem_nil, or_false] at hr
    subst hr
    exact truncate_le text
  · exact parseBoldItalicGo_runs text.length text r hr

/-- Every run _parse_markdown_inline emits holds at most 2000 characters. -/
theorem parseInlineGo_runs (fuel : Nat) :
    ∀ (s : List Char) (r : RichItem), r ∈ parseInlineGo fuel s → r.content.length ≤ 2000 := by
  induction fuel with
  | zero =>
    intro s r hr
    unfold parseInlineGo at hr
    split_ifs at hr
    · exact absurd hr (List.not_mem_nil r)
    · exact parse_bold_italic_runs s r hr
  | succ fuel ih =>
    intro s r hr
    unfold parseInlineGo at hr
    split_ifs at hr
    · exact absurd hr (List.not_mem_nil r)
    · cases hfl : findLink s with
      | none =>
        rw [hfl] at hr
        exact parse_bold_italic_runs s r hr
      | some q =>
        obtain ⟨start, len, g1, g2⟩ := q
        rw [hfl] at hr
        simp only [List.mem_append] at hr
        rcases hr with (hr | hr) | hr
        · split_ifs at hr
          · exact absurd hr (List.not_mem_nil r)
          · exact parse_bold_italic_runs _ r hr
        · rw [List.mem_map] at hr
          obtain ⟨it, hit, hlk⟩ := hr
          subst hlk
          rw [linkify_content]
          exact parse_bold_italic_runs g1 it (List.mem_of_mem_filter hit)
        · exact ih _ r hr

theorem parse_markdown_inline_runs (text : List Char) :
    ∀ r ∈ parse_markdown_inline text, r.content.length ≤ 2000 := by
  intro r hr
  unfold parse_markdown_inline at hr
  dsimp only at hr
  split_ifs at hr
  · exact absurd hr (List.not_mem_nil r)
  · simp only [List.mem_cons, List.not_mem_nil, or_false] at hr
    subst hr
    exact truncate_le text
  · exact parseInlineGo_runs text.length text r hr

theorem sumRunLens_append (xs ys : List RichItem) :
    sumRunLens (xs ++ ys) = sumRunLens xs + sumRunLens ys := by
  simp [sumRunLens, List.map_append, List.sum_append]

/-- Every slice produced by the over-long-item split is at most 2000
characters. -/
theorem chunksByGo_le (fuel : Nat) :
    ∀ (l t : List Char), t ∈ chunksByGo 2000 fuel l → t.length ≤ 2000 := by
  induction fuel with
  | zero =>
    intro l t ht
    unfold chunksByGo at ht
    split_ifs at ht
    · exact absurd ht (List.not_mem_nil t)
    · simp only [List.mem_cons, List.not_mem_nil, or_false] at ht
      subst ht
      rw [List.length_take]
      exact Nat.min_le_left _ _
  | succ fuel ih =>
    intro l t ht
    unfold chunksByGo at ht
    split_ifs at ht
    · exact absurd ht (List.not_mem_nil t)
    · simp only [List.mem_cons] at ht
      rcases ht with ht | ht
      · subst ht
        rw [List.length_take]
        exact Nat.min_le_left _ _
      · exact ih _ t ht

theorem chunksBy2000_le (l t : List Char) (ht : t ∈ chunksBy2000 l) : t.length ≤ 2000 :=
  chunksByGo_le l.length l t ht

theorem chunkStep_eq (blocks : List NBlock) (cur : List RichItem) (len : Nat) (item : RichItem) :
    chunkStep (blocks, cur, len) item
      = if len + item.content.length ≤ 2000 then
          (blocks, cur ++ [item], len + item.content.length)
        else if item.content.length ≤ 2000 then
          ((if cur.isEmpty then blocks else blocks ++ [NBlock.paragraph cur])
          , [item], item.content.length)
        else
          ((if cur.isEmpty then blocks else blocks ++ [NBlock.paragraph cur])
            ++ (chunksBy2000 item.content).map
                (fun t => NBlock.paragraph
                  [{ content := t, bold := item.bold, italic := item.italic
                   , color := item.color }])
          , [], 0) := rfl

/-- Invariant of the paragraph chunk loop: all flushed blocks are good,
the running length equals the current chunk's total, it never exceeds
2000, and every run in the current chunk is at most 2000 characters. -/
theorem chunkFold_invariant (items : List RichItem) :
    ∀ (blocks : List NBlock) (cur : List RichItem) (len : Nat),
    (∀ b ∈ blocks, GoodBlock b) → sumRunLens cur = len → len ≤ 2000 →
    (∀ r ∈ cur, r.content.length ≤ 2000) →
    (∀ b ∈ (items.foldl chunkStep (blocks, cur, len)).1, GoodBlock b)
    ∧ sumRunLens (items.foldl chunkStep (blocks, cur, len)).2.1
        = (items.foldl chunkStep (blocks, cur, len)).2.2
    ∧ (items.foldl chunkStep (blocks, cur, len)).2.2 ≤ 2000
    ∧ (∀ r ∈ (items.foldl chunkStep (blocks, cur, len)).2.1, r.content.length ≤ 2000) := by
  induction items with
  | nil =>
    intro blocks cur len hb hsum hle hruns
    exact ⟨hb, hsum, hle, hruns⟩
  | cons item rest ih =>
    intro blocks cur len hb hsum hle hruns
    rw [List.foldl_cons, chunkStep_eq]
    have hgoodcur : GoodBlock (NBlock.paragraph cur) := by
      refine ⟨hruns, ?_⟩
      intro rich heq
      injection heq with h
      rw [← h, hsum]
      exact hle
    have hb1 : ∀ b ∈ (if cur.isEmpty then blocks else blocks ++ [NBlock.paragraph cur]),
        GoodBlock b := by
      split_ifs
      · exact hb
      · intro b hbm
        rw [List.mem_append] at hbm
        rcases hbm with hbm | hbm
        · exact hb b hbm
        · simp only [List.mem_cons, List.not_mem_nil, or_false] at hbm
          subst hbm
          exact hgoodcur
    by_cases hfit : len + item.content.length ≤ 2000
    · rw [if_pos hfit]
      refine ih blocks (cur ++ [item]) (len + item.content.length) hb ?_ hfit ?_
      · rw [sumRunLens_append, hsum]
        simp [sumRunLens]
      · intro r hrm
        rw [List.mem_append] at hrm
        rcases hrm with hrm | hrm
        · exact hruns r hrm
        · simp only [List.mem_cons, List.not_mem_nil, or_false] at hrm
          subst hrm
          omega
    · rw [if_neg hfit]
      by_cases hsmall : item.content.length ≤ 2000
      · rw [if_pos hsmall]
        refine ih _ [item] item.content.length hb1 (by simp [sumRunLens]) hsmall ?_
        intro r hrm
        simp only [List.mem_cons, List.not_mem_nil, or_false] at hrm
        subst hrm
        exact hsmall
      · rw [if_neg hsmall]
        refine ih _ [] 0 ?_ (by simp [sumRunLens]) (by omega) (by simp)
        intro b hbm
        rw [List.mem_append] at hbm
        rcases hbm with hbm | hbm
        · exact hb1 b hbm
        · rw [List.mem_map] at hbm
          obtain ⟨t, htm, hbe⟩ := hbm
          subst hbe
          constructor
          · intro r hrm
            simp only [blockRuns, List.mem_cons, List.not_mem_nil, or_false] at hrm
            subst hrm
            exact chunksBy2000_le _ t htm
          · intro rich heq
            injection heq with h
            rw [← h]
            have hlt := chunksBy2000_le _ t htm
            simp only [sumRunLens, List.map_cons, List.map_nil, List.sum_cons, List.sum_nil]
            omega

/-- Every block the paragraph chunk loop emits is good. -/
theorem chunkRich_good (rich : List RichItem) : ∀ b ∈ chunkRich rich, GoodBlock b := by
  intro b hb
  unfold chunkRich at hb
  split_ifs at hb
  · exact absurd hb (List.not_mem_nil b)
  · have hinv := chunkFold_invariant rich [] [] 0 (by simp) (by simp [sumRunLens]) (by omega)
      (by simp)
    rcases hfold : rich.foldl chunkStep ([], [], 0) with ⟨bs, c, l⟩
    rw [hfold] at hb hinv
    obtain ⟨hbs, hsum, hlen, hruns⟩ := hinv
    dsimp only at hb hbs hsum hlen hruns
    rw [List.mem_append] at hb
    rcases hb with hb | hb
    · exact hbs b hb
    · split_ifs at hb
      · exact absurd hb (List.not_mem_nil b)
      · simp only [List.mem_cons, List.not_mem_nil, or_false] at hb
        subst hb
        refine ⟨hruns, ?_⟩
        intro rich2 heq
        injection heq with h
        rw [← h, hsum]
        exact hlen

/-- Every block processPara emits satisfies both bounds: its runs are at
most 2000 characters each (code blocks are truncated, the others parse
their inline text through the truncating inline parser), and paragraph
blocks — the only kind the chunk loop produces — have runs summing to at
most 2000. -/
theorem processPara_good (para : List Char) : ∀ b ∈ processPara para, GoodBlock b := by
  intro b hb
  unfold processPara at hb
  split_ifs at hb with h1 h2 h3 h4 h5
  · exact absurd hb (List.not_mem_nil b)
  · dsimp only at hb
    split_ifs at hb
    · exact absurd hb (List.not_mem_nil b)
    · simp only [List.mem_cons, List.not_mem_nil, or_false] at hb
      subst hb
      exact ⟨fun r hr => parse_markdown_inline_runs _ r hr,
        fun rich heq => NBlock.noConfusion heq⟩
  · dsimp only at hb
    split_ifs at hb
    · exact absurd hb (List.not_mem_nil b)
    · simp only [List.mem_cons, List.not_mem_nil, or_false] at hb
      subst hb
      refine ⟨?_, fun rich heq => NBlock.noConfusion heq⟩
      intro r hr
      simp only [blockRuns, List.mem_cons, List.not_mem_nil, or_false] at hr
      subst hr
      exact truncate_le _
    · simp only [List.mem_cons, List.not_mem_nil, or_false] at hb
      subst hb
      refine ⟨?_, fun rich heq => NBlock.noConfusion heq⟩
      intro r hr
      simp only [blockRuns, List.mem_cons, List.not_mem_nil, or_false] at hr
      subst hr
      exact truncate_le _
  · dsimp only at hb
    rw [List.mem_flatten] at hb
    obtain ⟨l, hl, hbl⟩ := hb
    rw [List.mem_map] at hl
    obtain ⟨it, _, hfe⟩ := hl
    subst hfe
    split_ifs at hbl
    · exact absurd hbl (List.not_mem_nil b)
    · simp only [List.mem_cons, List.not_mem_nil, or_false] at hbl
      subst hbl
      exact ⟨fun r hr => parse_markdown_inline_runs _ r hr,
        fun rich heq => NBlock.noConfusion heq⟩
  · dsimp only at hb
    rw [List.mem_flatten] at hb
    obtain ⟨l, hl, hbl⟩ := hb
    rw [List.mem_map] at hl
    obtain ⟨it, _, hfe⟩ := hl
    subst hfe
    split_ifs at hbl
    · exact absurd hbl (List.not_mem_nil b)
    · simp only [List.mem_cons, List.not_mem_nil, or_false] at hbl
      subst hbl
      exact ⟨fun r hr => parse_markdown_inline_runs _ r hr,
        fun rich heq => NBlock.noConfusion heq⟩
  · exact chunkRich_good _ b hb

/-- C1 amended: for every input, every rich_text run of every block the
transformer emits holds at most 2000 characters, and every paragraph
block's runs sum to at most 2000 characters.  (Heading, bullet and
numbered blocks have no sum bound — see the counterexample.) -/
theorem c1_amended_leaf_run_bounds (content : List Char) (b : NBlock)
    (hb : b ∈ parse_markdown_to_blocks content) :
    (∀ r ∈ blockRuns b, r.content.length ≤ 2000)
    ∧ ∀ rich, b = NBlock.paragraph rich → sumRunLens rich ≤ 2000 := by
  unfold parse_markdown_to_blocks at hb
  split_ifs at hb
  · exact absurd hb (List.not_mem_nil b)
  · dsimp only at hb
    rw [List.mem_flatten] at hb
    obtain ⟨l, hl, hbl⟩ := hb
    rw [List.mem_map] at hl
    obtain ⟨p, _, hpe⟩ := hl
    subst hpe
    exact processPara_good _ b hbl

/-- Witness for c1_amended_leaf_run_bounds at the concrete input "hi". -/
theorem c1_amended_leaf_run_bounds_witness :
    NBlock.paragraph [plainItem ("hi".toList)] ∈ parse_markdown_to_blocks ("hi".toList)
    ∧ (∀ r ∈ blockRuns (NBlock.paragraph [plainItem ("hi".toList)]), r.content.length ≤ 2000)
    ∧ ∀ rich, NBlock.paragraph [plainItem ("hi".toList)] = NBlock.paragraph rich
        → sumRunLens rich ≤ 2000 := by
  have hmem : NBlock.paragraph [plainItem ("hi".toList)]
      ∈ parse_markdown_to_blocks ("hi".toList) := by
    rw [show parse_markdown_to_blocks ("hi".toList)
        = [NBlock.paragraph [plainItem ("hi".toList)]] from rfl]
    exact List.mem_singleton_self _
  exact ⟨hmem, (c1_amended_leaf_run_bounds ("hi".toList) _ hmem).1,
    (c1_amended_leaf_run_bounds ("hi".toList) _ hmem).2⟩
